import Mathlib

/-!
Verification of the `data-ust` pipeline (`src/draft/_ust.py`, `src/runner.py`).

The script fetches yearly U.S. Treasury yield-curve XML documents, caches
them on disk, parses them into per-date records, and maintains a merged CSV
time series.  This file gives a shallow embedding of the data model and of
every operation the claims need, and proves or refutes the claims about it.

Conventions of the embedding:
* Calendar dates are triples of naturals ordered lexicographically
  (pandas `Timestamp` comparison restricted to calendar days).
* Yield values are rationals (`ℚ`), the exact idealisation of the floats
  flowing through the pipeline.
* Python functions that can raise become `Except String` / `Option`
  valued; an `Except.error` models an uncaught Python exception.
* The outside world (HTTP body per year, cache directory contents,
  `datetime.today().year`) is passed explicitly as parameters.
-/

/-- A calendar day, as produced by `pd.to_datetime` on a `YYYY-MM-DD`
string.  Ordered lexicographically by `dateLe`. -/
structure Date where
  year : Nat
  month : Nat
  day : Nat
deriving DecidableEq

/-- Lexicographic order on calendar days; models comparison of pandas
timestamps at day granularity. -/
def dateLe (a b : Date) : Bool :=
  decide (a.year < b.year) ||
    (decide (a.year = b.year) &&
      (decide (a.month < b.month) ||
        (decide (a.month = b.month) && decide (a.day ≤ b.day))))

/-- One row of the persisted rate table: a date index entry plus the yield
columns, in the fixed `BC_KEYS` column order (`DF_COLUMNS` without the
index). -/
structure Row where
  date : Date
  vals : List ℚ
deriving DecidableEq

/-- `pd.DataFrame.drop_duplicates(subset="date", keep="last")`: a row is
kept exactly when no later row carries the same date; kept rows stay in
their original relative order. -/
def keepLast : List Row → List Row
  | [] => []
  | r :: rs => if rs.any (fun s => s.date == r.date) then keepLast rs else r :: keepLast rs

/-- The merge step of `update_dfs` (`_ust.py` lines 191-196):
`pd.concat([df0, df1]).reset_index().drop_duplicates(subset="date",
keep="last").set_index("date")`. -/
def mergeTables (df0 df1 : List Row) : List Row :=
  keepLast (df0 ++ df1)

/-- Left fold computing the running maximum of a list of dates. -/
def foldMaxDate (d : Date) (l : List Date) : Date :=
  l.foldl (fun a x => if dateLe a x then x else a) d

/-- `max(df.index)` on the date index; `none` models the `ValueError`
pandas raises on an empty index. -/
def maxDate : List Row → Option Date
  | [] => none
  | r :: rs => some (foldMaxDate r.date (rs.map (fun s => s.date)))

/-- Left fold computing the running minimum of a list of dates. -/
def foldMinDate (d : Date) (l : List Date) : Date :=
  l.foldl (fun a x => if dateLe x a then x else a) d

/-- `min(df.index)` on the date index. -/
def minDate : List Row → Option Date
  | [] => none
  | r :: rs => some (foldMinDate r.date (rs.map (fun s => s.date)))

/-- `range(lo, hi + 1)` from `update_dfs`: the years `lo, lo+1, ..., hi`,
empty when `lo > hi`. -/
def yearRange (lo hi : Nat) : List Nat :=
  (List.range (hi + 1 - lo)).map (fun i => lo + i)

/-- `get_dfs(years)` (`_ust.py` lines 158-160), abstracted over `docT`,
the per-year parsed table that `get_df year` produces.  `none` models the
exceptions of the real code: `pd.concat([])` raises when `years` is
empty, and `get_df` raises a `KeyError` (selecting `DF_COLUMNS` from a
column-less frame) when a year's document parses to no records. -/
def get_dfs (docT : Nat → List Row) (years : List Nat) : Option (List Row) :=
  if years.isEmpty then none
  else if years.any (fun y => (docT y).isEmpty) then none
  else some ((years.map docT).flatten)

/-- `update_dfs()` (`_ust.py` lines 175-199) with the persisted table
passed in as `df0` and the freshly fetched data abstracted by `docT`:
takes the year of the latest recorded date, fetches that year through the
current year, and merges with `mergeTables`.  The merged table is then
written back to `CSV_PATH` unchanged, so the returned list is also the
persisted one. -/
def update_dfs (docT : Nat → List Row) (currentYear : Nat) (df0 : List Row) :
    Option (List Row) :=
  match maxDate df0 with
  | none => none
  | some m =>
    match get_dfs docT (yearRange m.year currentYear) with
    | none => none
    | some df1 => some (mergeTables df0 df1)

/-- Rows listed in non-decreasing date order. -/
def isSortedByDate : List Row → Bool
  | [] => true
  | [_] => true
  | a :: b :: t => dateLe a.date b.date && isSortedByDate (b :: t)

/-- Substring test: Python's `p in s` on strings, at the character-list
level. -/
def containsSub (p : List Char) : List Char → Bool
  | [] => p.isEmpty
  | c :: rest => p.isPrefixOf (c :: rest) || containsSub p rest

/-- `"Error" in content` from `get_xml_content_from_web`. -/
def containsError (s : String) : Bool :=
  containsSub "Error".toList s.toList

/-- `get_web_xml(year)`: the HTTP body for a year, with the network
modelled as the function `web`. -/
def get_web_xml (web : Nat → String) (year : Nat) : String :=
  web year

/-- `get_xml_content_from_web(year)` (`_ust.py` lines 122-129): returns
the body unless it contains the literal marker `"Error"`, in which case
it raises `ValueError`. -/
def get_xml_content_from_web (web : Nat → String) (year : Nat) : Except String String :=
  let content := get_web_xml web year
  if containsError content then
    Except.error "Cannot read year from web. Try again later."
  else
    Except.ok content

/-- The on-disk XML cache directory: year / file-content pairs, newest
first (a later `save_local_xml` for the same year shadows the older
file). -/
abbrev Cache := List (Nat × String)

/-- `read_local_xml(year)`; `none` models the missing-file case (which
`get_datapoints` rules out before calling it). -/
def read_local_xml (cache : Cache) (year : Nat) : Option String :=
  (cache.find? (fun p => p.1 == year)).map (fun p => p.2)

/-- `save_local_xml(year, content)`: overwrites the year's cache file. -/
def save_local_xml (cache : Cache) (year : Nat) (content : String) : Cache :=
  (year, content) :: cache

deriving instance DecidableEq for Except

/-- Observable outcome of one `get_datapoints` call: the XML content it
goes on to parse (or the exception), the cache directory afterwards, and
whether a network request was issued. -/
structure FetchOutcome where
  result : Except String String
  cache : Cache
  fetchedFromWeb : Bool
deriving DecidableEq

/-- `get_datapoints(year, from_web)` (`_ust.py` lines 139-147), up to the
final parse (the real function feeds the returned content to
`yield_datapoints_from_string`): fetches from the web when `from_web` is
set, when `year` is the current year, or when no cache file exists;
a successful fetch is saved to the cache; otherwise the cached file is
read. -/
def get_datapoints (web : Nat → String) (todayYear : Nat) (cache : Cache)
    (year : Nat) (from_web : Bool) : FetchOutcome :=
  if from_web || year == todayYear || (read_local_xml cache year).isNone then
    match get_xml_content_from_web web year with
    | Except.ok content => ⟨Except.ok content, save_local_xml cache year content, true⟩
    | Except.error e => ⟨Except.error e, cache, true⟩
  else
    ⟨Except.ok ((read_local_xml cache year).getD ""), cache, false⟩

/-- Big-endian base-10 digits, with explicit fuel (`natDigits` below
always supplies enough). -/
def natDigitsAux : Nat → Nat → List Nat
  | 0, n => [n]
  | fuel + 1, n => if n < 10 then [n] else natDigitsAux fuel (n / 10) ++ [n % 10]

/-- Big-endian base-10 digits of `n` (`[0]` for `0`). -/
def natDigits (n : Nat) : List Nat :=
  natDigitsAux n n

/-- The ASCII digit character for `d < 10`. -/
def digitChar (d : Nat) : Char :=
  Char.ofNat (48 + d)

/-- Decimal string of a natural, as characters. -/
def natChars (n : Nat) : List Char :=
  (natDigits n).map digitChar

/-- Numeric value of a string of ASCII digits (big-endian fold). -/
def charsVal (l : List Char) : Nat :=
  l.foldl (fun a c => 10 * a + (c.toNat - 48)) 0

/-- Left-pad with `'0'` to length `k`. -/
def padZeros (k : Nat) (l : List Char) : List Char :=
  List.replicate (k - l.length) '0' ++ l

/-- Optional leading sign of a numeric literal. -/
def parseSign (s : List Char) : ℚ × List Char :=
  match s with
  | [] => (1, [])
  | c :: r => if c = '-' then (-1, r) else if c = '+' then (1, r) else (1, c :: r)

/-- Python's `float(s)` on plain decimal literals (`[+-]digits[.digits]`,
at least one digit): `none` models the `ValueError` on anything else,
including the empty string.  (The exponent/`inf`/`nan` forms of `float`,
never produced by the feed, are not modelled and also map to `none`.) -/
def parseFloat (s : List Char) : Option ℚ :=
  let sg := (parseSign s).1
  let t := (parseSign s).2
  let ip := t.takeWhile (fun c => c.isDigit)
  let rest := t.dropWhile (fun c => c.isDigit)
  match rest with
  | [] => if ip.isEmpty then none else some (sg * (charsVal ip : ℚ))
  | c :: fp =>
    if c = '.' then
      if fp.all (fun d => d.isDigit) && !(ip.isEmpty && fp.isEmpty) then
        some (sg * ((charsVal ip : ℚ) + (charsVal fp : ℚ) / (10 : ℚ) ^ fp.length))
      else none
    else none

/-- `as_float(s)` (`_ust.py` lines 41-48): `float(s)`, with every parse
failure caught by the bare `except:` and turned into `0`. -/
def as_float (s : String) : ℚ :=
  match parseFloat s.toList with
  | some x => x
  | none => 0

/-- `datetime.strptime(s, "%Y-%m-%dT%H:%M:%S")` on its fixed 19-character
timestamp format, returning the calendar components; `none` models the
`ValueError` on a malformed string or out-of-range field. -/
def strptimeYmdHms (s : List Char) : Option (Nat × Nat × Nat) :=
  match s with
  | [y1, y2, y3, y4, a1, m1, m2, a2, d1, d2, a3, h1, h2, a4, n1, n2, a5, e1, e2] =>
    if ([y1, y2, y3, y4, m1, m2, d1, d2, h1, h2, n1, n2, e1, e2].all (fun c => c.isDigit))
        && a1 == '-' && a2 == '-' && a3 == 'T' && a4 == ':' && a5 == ':' then
      let mo := charsVal [m1, m2]
      let dy := charsVal [d1, d2]
      let hh := charsVal [h1, h2]
      let mi := charsVal [n1, n2]
      let ss := charsVal [e1, e2]
      if decide (1 ≤ mo) && decide (mo ≤ 12) && decide (1 ≤ dy) && decide (dy ≤ 31)
          && decide (hh ≤ 23) && decide (mi ≤ 59) && decide (ss ≤ 59) then
        some (charsVal [y1, y2, y3, y4], mo, dy)
      else none
    else none
  | _ => none

/-- A leaf XML element as `bs4` exposes it to this script: a tag name and
its text content. -/
structure Elem where
  name : String
  text : String
deriving DecidableEq

/-- A dynamically typed Python value, as far as this script passes one
around: a string, a `bs4` tag, or `None`. -/
inductive PyVal where
  | str (s : String)
  | tag (e : Elem)
  | pynone
deriving DecidableEq

/-- `entry.find(key)`: the first descendant element with the given tag
name, if any. -/
def bs_find (entry : List Elem) (key : String) : Option Elem :=
  entry.find? (fun e => e.name == key)

/-- The dynamic value of a `find` result (a tag, or `None`). -/
def pyOfFind : Option Elem → PyVal
  | some e => PyVal.tag e
  | none => PyVal.pynone

/-- `.text` on a `find` result: the element's text, or the
`AttributeError` Python raises when `find` returned `None`. -/
def bs_text : Option Elem → Except String String
  | some e => Except.ok e.text
  | none => Except.error "AttributeError"

/-- `datetime.strptime(x, "%Y-%m-%dT%H:%M:%S")` on a dynamic argument:
CPython raises `TypeError` unless `x` is a string. -/
def strptime (x : PyVal) : Except String (Nat × Nat × Nat) :=
  match x with
  | PyVal.str s =>
    match strptimeYmdHms s.toList with
    | some t => Except.ok t
    | none => Except.error "ValueError"
  | _ => Except.error "TypeError"

/-- `dt.strftime("%Y-%m-%d")` / the `to_csv` rendering of a date:
zero-padded `YYYY-MM-DD`. -/
def dateChars (d : Date) : List Char :=
  padZeros 4 (natChars d.year) ++ '-' :: (padZeros 2 (natChars d.month) ++ '-' :: padZeros 2 (natChars d.day))

/-- `get_date(x)` (`_ust.py` lines 36-38): `strptime` then
`strftime("%Y-%m-%d")`. -/
def get_date (x : PyVal) : Except String String :=
  match strptime x with
  | Except.ok (y, mo, dy) => Except.ok (String.mk (dateChars ⟨y, mo, dy⟩))
  | Except.error e => Except.error e

/-- `BC_KEYS` (`_ust.py` lines 10-23): the twelve yield columns. -/
def BC_KEYS : List String :=
  ["BC_1MONTH", "BC_3MONTH", "BC_6MONTH", "BC_1YEAR", "BC_2YEAR", "BC_3YEAR",
   "BC_5YEAR", "BC_7YEAR", "BC_10YEAR", "BC_20YEAR", "BC_30YEAR", "BC_30YEARDISPLAY"]

/-- One parsed datapoint of the primary parser: the dictionary
`{key: as_float(...) for key in BC_KEYS} ∪ {"date": ...}`, with the
values listed in `BC_KEYS` order. -/
structure Point where
  date : String
  vals : List ℚ
deriving DecidableEq

/-- A year's XML document as the two parsers see it: the entry lists
returned by `soup.find_all("content")` and `soup.find_all("properties")`,
each entry being the list of its descendant elements in document
order. -/
structure XmlDoc where
  contents : List (List Elem)
  properties : List (List Elem)

/-- The body of the `for datum in data` loop of
`yield_datapoints_from_string`: twelve `as_float(datum.find(key).text)`
coercions, then the date. -/
def parseContentEntry (datum : List Elem) : Except String Point := do
  let vals ← BC_KEYS.mapM (fun key => do
    let t ← bs_text (bs_find datum key)
    Except.ok (as_float t))
  let ds ← bs_text (bs_find datum "NEW_DATE")
  let d ← get_date (PyVal.str ds)
  Except.ok ⟨d, vals⟩

/-- `yield_datapoints_from_string(xml_content)` (`_ust.py` lines 51-59),
fully consumed (as `pd.DataFrame` consumes the generator): one `Point`
per `content` entry, or the first uncaught exception. -/
def yield_datapoints_from_string (doc : XmlDoc) : Except String (List Point) :=
  doc.contents.mapM parseContentEntry

/-- One parsed datapoint of the alternative parser: the date plus the
`BC_`-prefixed children actually present in the entry. -/
structure Point2 where
  date : String
  fields : List (String × ℚ)
deriving DecidableEq

/-- The body of the `for prop in properties` loop of
`yield_datapoints_from_string_2`: note that `get_date` receives the
`find` result itself (a tag or `None`), not its `.text`, and that the
`float` conversion of the `BC_` children is unguarded. -/
def parsePropEntry (prop : List Elem) : Except String Point2 := do
  let d ← get_date (pyOfFind (bs_find prop "NEW_DATE"))
  let fields ← (prop.filter (fun c => c.name.startsWith "BC_")).mapM (fun c =>
    match parseFloat c.text.toList with
    | some v => Except.ok (c.name, v)
    | none => Except.error "ValueError")
  Except.ok ⟨d, fields⟩

/-- `yield_datapoints_from_string_2(xml_content)` (`_ust.py` lines
62-72), fully consumed. -/
def yield_datapoints_from_string_2 (doc : XmlDoc) : Except String (List Point2) :=
  doc.properties.mapM parsePropEntry

/-- `pd.to_datetime` as used on this pipeline's own `YYYY-MM-DD` date
strings. -/
def parseYmd (s : List Char) : Option Date :=
  match s with
  | [y1, y2, y3, y4, a1, m1, m2, a2, d1, d2] =>
    if ([y1, y2, y3, y4, m1, m2, d1, d2].all (fun c => c.isDigit)) && a1 == '-' && a2 == '-' then
      some ⟨charsVal [y1, y2, y3, y4], charsVal [m1, m2], charsVal [d1, d2]⟩
    else none
  | _ => none

/-- The text of `entry.find(key)` when the element is present (`""`
otherwise); used to state what the parser extracts for a field. -/
def findText (datum : List Elem) (key : String) : String :=
  ((bs_find datum key).map (fun e => e.text)).getD ""

/-- Rows of `df` falling in calendar month `(y, m)`. -/
def rowsInMonth (df : List Row) (y m : Nat) : List Row :=
  df.filter (fun r => r.date.year == y && r.date.month == m)

/-- Serial month number used to enumerate the calendar months of a
span. -/
def monthKey (y m : Nat) : Nat :=
  y * 12 + (m - 1)

/-- Inverse of `monthKey` on valid months. -/
def keyToYM (k : Nat) : Nat × Nat :=
  (k / 12, k % 12 + 1)

/-- The consecutive calendar months from the month of `lo` to the month
of `hi`: the bins `resample("M")` creates over a date index with that
minimum and maximum. -/
def monthSpan (lo hi : Date) : List (Nat × Nat) :=
  (List.range (monthKey hi.year hi.month + 1 - monthKey lo.year lo.month)).map
    (fun i => keyToYM (monthKey lo.year lo.month + i))

/-- Round to the nearest integer, ties to even: the rounding of
`numpy`/pandas `.round`. -/
def roundHalfEven (x : ℚ) : ℤ :=
  let f := ⌊x⌋
  if x - f < 1/2 then f
  else if (1 : ℚ)/2 < x - f then f + 1
  else if f % 2 = 0 then f else f + 1

/-- `.round(2)`. -/
def round2 (x : ℚ) : ℚ :=
  (roundHalfEven (x * 100) : ℚ) / 100

/-- The mean of column `j` over the given rows (only used on non-empty
row sets). -/
def colMean (rows : List Row) (j : Nat) : ℚ :=
  ((rows.map (fun r => r.vals.getD j 0)).sum) / (rows.length : ℚ)

/-- One row of the monthly-average table: the `year` and `month` columns
(inserted, in that order, before the yield columns) and the twelve
averaged yields, `none` standing for pandas' `NaN` on a month with no
daily records. -/
structure MRow where
  year : Nat
  month : Nat
  vals : List (Option ℚ)
deriving DecidableEq

/-- `to_monthly_average(df)` (`_ust.py` lines 163-172):
`df.resample("M").mean().round(2)` — one bin per calendar month from the
index minimum to the index maximum, the mean of each of the twelve
columns over the bin (`NaN` for an empty bin), rounded to two decimals —
then `month` and `year` inserted at position 0 (leaving `year` first). -/
def to_monthly_average (df : List Row) : List MRow :=
  match minDate df, maxDate df with
  | some lo, some hi =>
    (monthSpan lo hi).map (fun ym =>
      let rows := rowsInMonth df ym.1 ym.2
      ⟨ym.1, ym.2,
        if rows.isEmpty then List.replicate BC_KEYS.length (none : Option ℚ)
        else (List.range BC_KEYS.length).map (fun j => some (round2 (colMean rows j)))⟩)
  | _, _ => []

/-- Multiplicity of `p` in `n`, with explicit fuel. -/
def facPowAux (p : Nat) : Nat → Nat → Nat
  | 0, _ => 0
  | fuel + 1, n => if n ≠ 0 && n % p == 0 then facPowAux p fuel (n / p) + 1 else 0

/-- Multiplicity of the factor `p` in `n` (fuel `n` is always enough for
`p ≥ 2`). -/
def facPow (p n : Nat) : Nat :=
  facPowAux p n n

/-- A rational with a finite decimal expansion — the exact values floats
can carry, hence the values actually flowing through the pipeline. -/
def isDecimal (q : ℚ) : Bool :=
  q.den == 2 ^ facPow 2 q.den * 5 ^ facPow 5 q.den

/-- The decimal rendering a float of value `q` receives in `to_csv`
(shortest-round-trip `repr`, idealised as the exact expansion, always
with at least one fractional digit). -/
def ratChars (q : ℚ) : List Char :=
  let k := max (max (facPow 2 q.den) (facPow 5 q.den)) 1
  let scaled := q.num.natAbs * 10 ^ k / q.den
  (if q.num < 0 then ['-'] else []) ++
    natChars (scaled / 10 ^ k) ++ '.' :: padZeros k (natChars (scaled % 10 ^ k))

/-- A date cell of the persisted CSV. -/
def dateCell (d : Date) : String :=
  String.mk (dateChars d)

/-- A numeric cell of the persisted CSV. -/
def ratCell (q : ℚ) : String :=
  String.mk (ratChars q)

/-- The CSV header `DF_COLUMNS`: the `date` index column then the twelve
yield columns. -/
def csvHeader : List String :=
  "date" :: BC_KEYS

/-- `df.to_csv(...)` on a rate table, at cell granularity (one list of
cells per line; the comma-delimiting itself carries no information for
these comma-free cells). -/
def writeCsv (t : List Row) : List (List String) :=
  csvHeader :: t.map (fun r => dateCell r.date :: r.vals.map ratCell)

/-- One data line of `pd.read_csv(..., index_col=0,
converters={0: pd.to_datetime})`: the first cell becomes the date key,
the rest the float columns; `none` models the parse exceptions. -/
def readCsvRow (cells : List String) : Option Row :=
  match cells with
  | [] => none
  | dc :: vcs => do
    let d ← parseYmd dc.toList
    let vs ← vcs.mapM (fun c => parseFloat c.toList)
    pure (⟨d, vs⟩ : Row)

/-- Reading back the persisted CSV (`update_dfs` line 179 /
`runner.py` line 26): header line, then one row per data line, the date
column parsed as the row key. -/
def readCsv (f : List (List String)) : Option (List Row) :=
  match f with
  | [] => none
  | h :: rows =>
    if h = csvHeader then
      rows.mapM (fun cells => if cells.length = csvHeader.length then readCsvRow cells else none)
    else none

/-! ## Order lemmas for dates -/

theorem dateLe_iff (a b : Date) : dateLe a b = true ↔
    (a.year < b.year ∨ (a.year = b.year ∧
      (a.month < b.month ∨ (a.month = b.month ∧ a.day ≤ b.day)))) := by
  simp [dateLe]

theorem dateLe_refl (a : Date) : dateLe a a = true := by
  simp [dateLe_iff]

theorem dateLe_trans {a b c : Date} (h1 : dateLe a b = true) (h2 : dateLe b c = true) :
    dateLe a c = true := by
  rw [dateLe_iff] at h1 h2 ⊢
  omega

theorem dateLe_total (a b : Date) : dateLe a b = true ∨ dateLe b a = true := by
  rw [dateLe_iff, dateLe_iff]
  omega

theorem year_le_of_dateLe {a b : Date} (h : dateLe a b = true) : a.year ≤ b.year := by
  rw [dateLe_iff] at h
  omega

/-! ## Lemmas about `maxDate` -/

theorem foldMaxDate_cons (d y : Date) (ys : List Date) :
    foldMaxDate d (y :: ys) = foldMaxDate (if dateLe d y then y else d) ys := rfl

theorem dateLe_foldMaxDate_init (l : List Date) : ∀ d, dateLe d (foldMaxDate d l) = true := by
  induction l with
  | nil => intro d; exact dateLe_refl d
  | cons y ys ih =>
    intro d
    rw [foldMaxDate_cons]
    by_cases h : dateLe d y = true
    · simp only [h, if_true]
      exact dateLe_trans h (ih y)
    · simp only [h, if_false]
      exact ih d

theorem dateLe_foldMaxDate_mem (l : List Date) : ∀ d, ∀ x ∈ l, dateLe x (foldMaxDate d l) = true := by
  induction l with
  | nil => intro d x hx; cases hx
  | cons y ys ih =>
    intro d x hx
    rw [foldMaxDate_cons]
    rcases List.mem_cons.mp hx with rfl | hx
    · by_cases h : dateLe d x = true
      · simp only [h, if_true]
        exact dateLe_foldMaxDate_init ys x
      · simp only [h, if_false]
        rcases dateLe_total d x with h2 | h2
        · exact absurd h2 h
        · exact dateLe_trans h2 (dateLe_foldMaxDate_init ys d)
    · exact ih _ x hx

theorem foldMaxDate_mem (l : List Date) : ∀ d, foldMaxDate d l = d ∨ foldMaxDate d l ∈ l := by
  induction l with
  | nil => intro d; left; rfl
  | cons y ys ih =>
    intro d
    rw [foldMaxDate_cons]
    by_cases h : dateLe d y = true
    · simp only [h, if_true]
      rcases ih y with h2 | h2
      · right; rw [h2]; exact List.mem_cons_self _ _
      · right; exact List.mem_cons_of_mem _ h2
    · simp only [h, if_false]
      rcases ih d with h2 | h2
      · left; exact h2
      · right; exact List.mem_cons_of_mem _ h2

theorem maxDate_eq_none_iff (l : List Row) : maxDate l = none ↔ l = [] := by
  cases l <;> simp [maxDate]

theorem maxDate_isUB {l : List Row} {m : Date} (h : maxDate l = some m) :
    ∀ r ∈ l, dateLe r.date m = true := by
  cases l with
  | nil => cases h
  | cons r rs =>
    simp only [maxDate, Option.some.injEq] at h
    subst h
    intro s hs
    rcases List.mem_cons.mp hs with rfl | hs
    · exact dateLe_foldMaxDate_init _ _
    · exact dateLe_foldMaxDate_mem _ _ _ (List.mem_map_of_mem _ hs)

theorem maxDate_mem_dates {l : List Row} {m : Date} (h : maxDate l = some m) :
    ∃ r ∈ l, r.date = m := by
  cases l with
  | nil => cases h
  | cons r rs =>
    simp only [maxDate, Option.some.injEq] at h
    subst h
    rcases foldMaxDate_mem (rs.map (fun s => s.date)) r.date with h2 | h2
    · exact ⟨r, List.mem_cons_self _ _, h2.symm⟩
    · rcases List.mem_map.mp h2 with ⟨s, hs, hsd⟩
      exact ⟨s, List.mem_cons_of_mem _ hs, hsd⟩

/-! ## Structure lemmas for `keepLast` -/

theorem keepLast_cons (r : Row) (rs : List Row) :
    keepLast (r :: rs) =
      if rs.any (fun s => s.date == r.date) then keepLast rs else r :: keepLast rs := rfl

theorem mem_of_mem_keepLast {r : Row} : ∀ {l : List Row}, r ∈ keepLast l → r ∈ l := by
  intro l
  induction l with
  | nil => intro h; cases h
  | cons x xs ih =>
    rw [keepLast_cons]
    by_cases h : xs.any (fun s => s.date == x.date) = true
    · simp only [h, if_true]
      intro hr
      exact List.mem_cons_of_mem _ (ih hr)
    · simp only [h, if_false]
      intro hr
      rcases List.mem_cons.mp hr with rfl | hr
      · exact List.mem_cons_self _ _
      · exact List.mem_cons_of_mem _ (ih hr)

theorem any_filter_not_in_b (b : List Row) (d : Date)
    (hb : b.any (fun s => s.date == d) = false) :
    ∀ a : List Row,
      (a.filter (fun x => !(b.any (fun s => s.date == x.date)))).any (fun s => s.date == d)
        = a.any (fun s => s.date == d) := by
  intro a
  induction a with
  | nil => rfl
  | cons x xs ih =>
    by_cases hx : x.date = d
    · have hbx : b.any (fun s => s.date == x.date) = false := by rw [hx]; exact hb
      have hxd : (x.date == d) = true := by simp [hx]
      simp [List.filter_cons, hbx, hxd]
    · have hxd : (x.date == d) = false := by simp [hx]
      by_cases hpx : (!(b.any (fun s => s.date == x.date))) = true
      · simp [List.filter_cons, hpx, hxd, ih]
      · simp only [Bool.not_eq_true'] at hpx
        simp [List.filter_cons, hpx, hxd, ih]

theorem keepLast_append (a b : List Row) :
    keepLast (a ++ b) =
      keepLast (a.filter (fun x => !(b.any (fun s => s.date == x.date)))) ++ keepLast b := by
  induction a with
  | nil => simp [keepLast]
  | cons x xs ih =>
    rw [List.cons_append, keepLast_cons, List.filter_cons]
    by_cases hb : b.any (fun s => s.date == x.date) = true
    · have hany : ((xs ++ b).any (fun s => s.date == x.date)) = true := by
        rw [List.any_append, hb, Bool.or_true]
      simp only [hany, if_true, hb, Bool.not_true, Bool.false_eq_true, if_false]
      exact ih
    · have hb' : b.any (fun s => s.date == x.date) = false := by
        simpa using hb
      have hany : ((xs ++ b).any (fun s => s.date == x.date))
          = (xs.any (fun s => s.date == x.date)) := by
        rw [List.any_append, hb', Bool.or_false]
      have hfil := any_filter_not_in_b b x.date hb' xs
      rw [hany]
      by_cases hxs : xs.any (fun s => s.date == x.date) = true
      · simp only [hxs, if_true, hb', Bool.not_false, if_true, keepLast_cons, hfil]
        exact ih
      · have hxs' : xs.any (fun s => s.date == x.date) = false := by simpa using hxs
        simp only [hxs', if_false, hb', Bool.not_false, if_true, keepLast_cons, hfil,
          Bool.false_eq_true]
        rw [ih, List.cons_append]

theorem exists_date_of_exists_date_keepLast {l : List Row} {d : Date}
    (h : ∃ r ∈ keepLast l, r.date = d) : ∃ r ∈ l, r.date = d := by
  rcases h with ⟨r, hr, hd⟩
  exact ⟨r, mem_of_mem_keepLast hr, hd⟩

theorem exists_date_keepLast_of_exists_date {l : List Row} {d : Date} :
    (∃ r ∈ l, r.date = d) → ∃ r ∈ keepLast l, r.date = d := by
  induction l with
  | nil => intro h; rcases h with ⟨r, hr, _⟩; cases hr
  | cons x xs ih =>
    intro h
    rw [keepLast_cons]
    by_cases hany : xs.any (fun s => s.date == x.date) = true
    · simp only [hany, if_true]
      rcases h with ⟨r, hr, hd⟩
      rcases List.mem_cons.mp hr with rfl | hr
      · rcases List.any_eq_true.mp hany with ⟨s, hs, hsd⟩
        have hsd' : s.date = r.date := by simpa using hsd
        exact ih ⟨s, hs, hsd'.trans hd⟩
      · exact ih ⟨r, hr, hd⟩
    · simp only [hany, if_false]
      rcases h with ⟨r, hr, hd⟩
      rcases List.mem_cons.mp hr with rfl | hr
      · exact ⟨r, List.mem_cons_self _ _, hd⟩
      · rcases ih ⟨r, hr, hd⟩ with ⟨s, hs, hsd⟩
        exact ⟨s, List.mem_cons_of_mem _ hs, hsd⟩

theorem keepLast_pairwise (l : List Row) :
    (keepLast l).Pairwise (fun a b => a.date ≠ b.date) := by
  induction l with
  | nil => exact List.Pairwise.nil
  | cons x xs ih =>
    rw [keepLast_cons]
    by_cases hany : xs.any (fun s => s.date == x.date) = true
    · simp only [hany, if_true]
      exact ih
    · simp only [hany, if_false]
      refine List.Pairwise.cons ?_ ih
      intro b hb heq
      have hb' : b ∈ xs := mem_of_mem_keepLast hb
      exact hany (List.any_eq_true.mpr ⟨b, hb', by simp [heq.symm]⟩)

theorem keepLast_eq_self {l : List Row} (h : l.Pairwise (fun a b => a.date ≠ b.date)) :
    keepLast l = l := by
  induction l with
  | nil => rfl
  | cons x xs ih =>
    rw [List.pairwise_cons] at h
    have hany : xs.any (fun s => s.date == x.date) = false := by
      rw [List.any_eq_false]
      intro s hs
      simp only [beq_iff_eq]
      exact fun he => h.1 s hs he.symm
    rw [keepLast_cons, hany]
    simp only [Bool.false_eq_true, if_false]
    rw [ih h.2]

theorem keepLast_keepLast (l : List Row) : keepLast (keepLast l) = keepLast l :=
  keepLast_eq_self (keepLast_pairwise l)

theorem keepLast_eq_nil_iff (l : List Row) : keepLast l = [] ↔ l = [] := by
  induction l with
  | nil => simp [keepLast]
  | cons x xs ih =>
    rw [keepLast_cons]
    by_cases hany : xs.any (fun s => s.date == x.date) = true
    · have hxs : xs ≠ [] := by
        intro he
        rw [he] at hany
        cases hany
      simp only [hany, if_true, ih]
      simp [hxs]
    · simp only [hany, if_false]
      simp

theorem filter_keepLast_comm (p : Row → Bool) (hp : ∀ a b : Row, a.date = b.date → p a = p b) :
    ∀ l : List Row, (keepLast l).filter p = keepLast (l.filter p) := by
  intro l
  induction l with
  | nil => rfl
  | cons x xs ih =>
    rw [keepLast_cons, List.filter_cons]
    by_cases hany : xs.any (fun s => s.date == x.date) = true
    · simp only [hany, if_true]
      by_cases hpx : p x = true
      · simp only [hpx, if_true]
        rcases List.any_eq_true.mp hany with ⟨s, hs, hsd⟩
        have hsd' : s.date = x.date := by simpa using hsd
        have hany2 : (xs.filter p).any (fun s => s.date == x.date) = true := by
          refine List.any_eq_true.mpr ⟨s, List.mem_filter.mpr ⟨hs, ?_⟩, by simp [hsd']⟩
          rw [hp s x hsd', hpx]
        rw [keepLast_cons, hany2]
        simp only [if_true]
        exact ih
      · simp only [hpx, if_false]
        exact ih
    · have hany' : xs.any (fun s => s.date == x.date) = false := by simpa using hany
      have hany2 : (xs.filter p).any (fun s => s.date == x.date) = false := by
        rw [List.any_eq_false]
        intro s hs
        have hs' : s ∈ xs := (List.mem_filter.mp hs).1
        exact List.any_eq_false.mp hany' s hs'
      simp only [hany', Bool.false_eq_true, if_false, List.filter_cons]
      by_cases hpx : p x = true
      · simp only [hpx, if_true, keepLast_cons, hany2, Bool.false_eq_true, if_false,
          List.filter_cons]
        rw [ih]
      · simp only [hpx, if_false]
        simp only [Bool.false_eq_true, if_false]
        exact ih

theorem keepLast_absorb (x s : List Row) :
    keepLast (keepLast (x ++ s) ++ s) = keepLast (x ++ s) := by
  rw [keepLast_append (keepLast (x ++ s)) s, keepLast_append x s, List.filter_append]
  have h1 : (keepLast (x.filter (fun r => !(s.any (fun t => t.date == r.date))))).filter
      (fun r => !(s.any (fun t => t.date == r.date)))
      = keepLast (x.filter (fun r => !(s.any (fun t => t.date == r.date)))) := by
    rw [List.filter_eq_self]
    intro a ha
    exact (List.mem_filter.mp (mem_of_mem_keepLast ha)).2
  have h2 : (keepLast s).filter (fun r => !(s.any (fun t => t.date == r.date))) = [] := by
    rw [List.filter_eq_nil_iff]
    intro a ha
    have ha' : a ∈ s := mem_of_mem_keepLast ha
    have hw : s.any (fun t => t.date == a.date) = true :=
      List.any_eq_true.mpr ⟨a, ha', by simp⟩
    simp [hw]
  rw [h1, h2, List.append_nil, keepLast_keepLast]

/-! ## Lemmas about `yearRange`, `get_dfs`, `update_dfs` -/

theorem mem_yearRange {y lo hi : Nat} : y ∈ yearRange lo hi ↔ lo ≤ y ∧ y ≤ hi := by
  unfold yearRange
  constructor
  · intro h
    rcases List.mem_map.mp h with ⟨i, hi1, rfl⟩
    have := List.mem_range.mp hi1
    omega
  · intro h
    refine List.mem_map.mpr ⟨y - lo, List.mem_range.mpr (by omega), by omega⟩

theorem yearRange_ne_nil {lo hi : Nat} (h : lo ≤ hi) : yearRange lo hi ≠ [] := by
  intro he
  have : lo ∈ yearRange lo hi := mem_yearRange.mpr ⟨le_refl lo, h⟩
  rw [he] at this
  cases this

theorem yearRange_nil {lo hi : Nat} (h : hi < lo) : yearRange lo hi = [] := by
  unfold yearRange
  have : hi + 1 - lo = 0 := by omega
  rw [this]
  rfl

theorem yearRange_split {lo mid hi : Nat} (h1 : lo ≤ mid) (h2 : mid ≤ hi + 1) :
    yearRange lo hi = (List.range (mid - lo)).map (fun i => lo + i) ++ yearRange mid hi := by
  unfold yearRange
  have hlen : hi + 1 - lo = (mid - lo) + (hi + 1 - mid) := by omega
  rw [hlen, List.range_add, List.map_append, List.map_map]
  congr 1
  refine List.map_congr_left ?_
  intro a _
  simp only [Function.comp_apply]
  omega

theorem get_dfs_some {docT : Nat → List Row} {years : List Nat}
    (hne : years ≠ []) (hall : ∀ y ∈ years, docT y ≠ []) :
    get_dfs docT years = some ((years.map docT).flatten) := by
  unfold get_dfs
  have h1 : ¬(years.isEmpty = true) := by
    simpa [List.isEmpty_iff] using hne
  have h2 : years.any (fun y => (docT y).isEmpty) = false := by
    rw [List.any_eq_false]
    intro y hy
    simpa [List.isEmpty_iff] using hall y hy
  rw [if_neg h1, if_neg (by simp [h2])]

theorem get_dfs_some_inv {docT : Nat → List Row} {years : List Nat} {df : List Row}
    (h : get_dfs docT years = some df) :
    years ≠ [] ∧ (∀ y ∈ years, docT y ≠ []) ∧ df = (years.map docT).flatten := by
  unfold get_dfs at h
  by_cases h1 : years.isEmpty = true
  · rw [if_pos h1] at h; cases h
  · rw [if_neg h1] at h
    by_cases h2 : years.any (fun y => (docT y).isEmpty) = true
    · rw [if_pos h2] at h; cases h
    · rw [if_neg h2] at h
      refine ⟨by simpa [List.isEmpty_iff] using h1, ?_, (Option.some.inj h).symm⟩
      intro y hy
      have h2' : years.any (fun y => (docT y).isEmpty) = false := by simpa using h2
      simpa [List.isEmpty_iff] using List.any_eq_false.mp h2' y hy

theorem update_dfs_eq {docT : Nat → List Row} {c : Nat} {df0 df1 : List Row} {m : Date}
    (hm : maxDate df0 = some m)
    (hg : get_dfs docT (yearRange m.year c) = some df1) :
    update_dfs docT c df0 = some (mergeTables df0 df1) := by
  simp only [update_dfs, hm, hg]

theorem update_dfs_some_inv {docT : Nat → List Row} {c : Nat} {df0 t : List Row}
    (h : update_dfs docT c df0 = some t) :
    ∃ m df1, maxDate df0 = some m ∧ get_dfs docT (yearRange m.year c) = some df1 ∧
      t = mergeTables df0 df1 := by
  cases hm : maxDate df0 with
  | none =>
    simp only [update_dfs, hm] at h
    exact Option.noConfusion h
  | some m =>
    cases hg : get_dfs docT (yearRange m.year c) with
    | none =>
      simp only [update_dfs, hm, hg] at h
      exact Option.noConfusion h
    | some df1 =>
      simp only [update_dfs, hm, hg, Option.some.injEq] at h
      exact ⟨m, df1, rfl, hg, h.symm⟩

/-- C1: merge correctness of `update` — whenever the existing persisted
table has a row for date `D` and the freshly fetched table has exactly one
row `r` for `D`, the merged table `mergeTables df0 df1` built by
`update_dfs` contains exactly one row for `D`, and it is `r`, the freshly
fetched one (never the previously persisted one). -/
theorem c1_update_merge_prefers_fresh (df0 df1 : List Row) (D : Date) (r : Row)
    (h0 : ∃ r0 ∈ df0, r0.date = D)
    (h1 : df1.filter (fun s => s.date == D) = [r]) :
    (mergeTables df0 df1).filter (fun s => s.date == D) = [r] := by
  have hrfil : r ∈ df1.filter (fun s => s.date == D) := by
    rw [h1]; exact List.mem_cons_self _ _
  have hrmem : r ∈ df1 := (List.mem_filter.mp hrfil).1
  have hrd : (r.date == D) = true := (List.mem_filter.mp hrfil).2
  have hb : df1.any (fun s => s.date == D) = true := List.any_eq_true.mpr ⟨r, hrmem, hrd⟩
  unfold mergeTables
  rw [keepLast_append, List.filter_append]
  have hleft : (keepLast (df0.filter (fun x => !(df1.any (fun s => s.date == x.date))))).filter
      (fun s => s.date == D) = [] := by
    rw [List.filter_eq_nil_iff]
    intro a ha had
    have ha' := List.mem_filter.mp (mem_of_mem_keepLast ha)
    have had' : a.date = D := by simpa using had
    have hnone : df1.any (fun s => s.date == a.date) = false := by simpa using ha'.2
    rw [had', hb] at hnone
    cases hnone
  rw [hleft, List.nil_append,
    filter_keepLast_comm (fun s => s.date == D) (fun a b hab => by simp only [hab]) df1, h1]
  simp [keepLast]

/-- C1 witness: a concrete overlapping date where the fresh row wins. -/
theorem c1_update_merge_prefers_fresh_witness :
    (∃ r0 ∈ [Row.mk ⟨2021, 1, 4⟩ [(1 : ℚ)]], r0.date = ⟨2021, 1, 4⟩) ∧
      ([Row.mk ⟨2021, 1, 4⟩ [(2 : ℚ)]].filter (fun s => s.date == ⟨2021, 1, 4⟩)
        = [Row.mk ⟨2021, 1, 4⟩ [(2 : ℚ)]]) ∧
      ((mergeTables [Row.mk ⟨2021, 1, 4⟩ [(1 : ℚ)]] [Row.mk ⟨2021, 1, 4⟩ [(2 : ℚ)]]).filter
          (fun s => s.date == ⟨2021, 1, 4⟩)
        = [Row.mk ⟨2021, 1, 4⟩ [(2 : ℚ)]]) :=
  ⟨by decide, by decide,
    c1_update_merge_prefers_fresh _ _ _ _ (by decide) (by decide)⟩

/-- C2 counterexample: a run of `update_dfs` whose output is not in
non-decreasing date order, although both the persisted table and the
fetched year table are sorted — the overlapping date 2021-01-04 moves to
the position of its fresh occurrence, after 2021-01-06.  `update_dfs`
performs no sort. -/
theorem c2_update_not_resorted_counterexample :
    update_dfs
        (fun y => if y = 2021 then
          [Row.mk ⟨2021, 1, 4⟩ [(2 : ℚ)], Row.mk ⟨2021, 1, 5⟩ [(3 : ℚ)]] else [])
        2021
        [Row.mk ⟨2021, 1, 4⟩ [(1 : ℚ)], Row.mk ⟨2021, 1, 6⟩ [(1 : ℚ)]]
      = some [Row.mk ⟨2021, 1, 6⟩ [(1 : ℚ)], Row.mk ⟨2021, 1, 4⟩ [(2 : ℚ)],
          Row.mk ⟨2021, 1, 5⟩ [(3 : ℚ)]] ∧
    isSortedByDate [Row.mk ⟨2021, 1, 6⟩ [(1 : ℚ)], Row.mk ⟨2021, 1, 4⟩ [(2 : ℚ)],
        Row.mk ⟨2021, 1, 5⟩ [(3 : ℚ)]] = false := by
  decide

/-- C2 (amended): `update_dfs` does not re-sort the merged table.  The
table it persists is exactly: the existing rows whose dates do not occur
in the freshly fetched data (deduplicated, in their original order),
followed by the freshly fetched rows deduplicated by date keeping the
last occurrence, in fetch order.  It is therefore in non-decreasing date
order only when that concatenation happens to be. -/
theorem c2_amended_update_merge_order (docT : Nat → List Row) (c : Nat)
    (df0 df1 : List Row) (m : Date)
    (hm : maxDate df0 = some m)
    (hg : get_dfs docT (yearRange m.year c) = some df1) :
    update_dfs docT c df0 =
      some (keepLast (df0.filter (fun x => !(df1.any (fun s => s.date == x.date)))) ++
        keepLast df1) := by
  rw [update_dfs_eq hm hg]
  unfold mergeTables
  rw [keepLast_append]

/-- C2 witness for the amended statement, on the counterexample's data. -/
theorem c2_amended_update_merge_order_witness :
    maxDate [Row.mk ⟨2021, 1, 4⟩ [(1 : ℚ)], Row.mk ⟨2021, 1, 6⟩ [(1 : ℚ)]] = some ⟨2021, 1, 6⟩ ∧
    get_dfs
        (fun y => if y = 2021 then
          [Row.mk ⟨2021, 1, 4⟩ [(2 : ℚ)], Row.mk ⟨2021, 1, 5⟩ [(3 : ℚ)]] else [])
        (yearRange 2021 2021)
      = some [Row.mk ⟨2021, 1, 4⟩ [(2 : ℚ)], Row.mk ⟨2021, 1, 5⟩ [(3 : ℚ)]] ∧
    update_dfs
        (fun y => if y = 2021 then
          [Row.mk ⟨2021, 1, 4⟩ [(2 : ℚ)], Row.mk ⟨2021, 1, 5⟩ [(3 : ℚ)]] else [])
        2021
        [Row.mk ⟨2021, 1, 4⟩ [(1 : ℚ)], Row.mk ⟨2021, 1, 6⟩ [(1 : ℚ)]]
      = some (keepLast ([Row.mk ⟨2021, 1, 4⟩ [(1 : ℚ)], Row.mk ⟨2021, 1, 6⟩ [(1 : ℚ)]].filter
            (fun x => !([Row.mk ⟨2021, 1, 4⟩ [(2 : ℚ)], Row.mk ⟨2021, 1, 5⟩ [(3 : ℚ)]].any
              (fun s => s.date == x.date)))) ++
          keepLast [Row.mk ⟨2021, 1, 4⟩ [(2 : ℚ)], Row.mk ⟨2021, 1, 5⟩ [(3 : ℚ)]]) :=
  ⟨by decide, by decide,
    c2_amended_update_merge_order _ 2021 _ _ ⟨2021, 1, 6⟩ (by decide) (by decide)⟩

/-- C7: idempotence of `update` — if a first run on a valid persisted
table succeeds and produces `t1`, a second run with no new upstream data
(the same per-year documents `docT`, none of which carries a date past
the current year) reproduces exactly `t1`, row for row.  (The write/read
of the CSV between the runs is the identity on tables by the exact
round trip proven for C8, so the second run's input is `t1` itself.) -/
theorem c7_update_idempotent (docT : Nat → List Row) (c : Nat) (df0 t1 : List Row)
    (hdoc : ∀ y, ∀ r ∈ docT y, r.date.year ≤ c)
    (h1 : update_dfs docT c df0 = some t1) :
    update_dfs docT c t1 = some t1 := by
  obtain ⟨m0, df1, hm0, hg1, ht1⟩ := update_dfs_some_inv h1
  obtain ⟨hysne, hall, hdf1⟩ := get_dfs_some_inv hg1
  have hy0c : m0.year ≤ c := by
    by_contra hlt
    exact hysne (yearRange_nil (by omega))
  have ht1ne : t1 ≠ [] := by
    rw [ht1]
    unfold mergeTables
    rw [Ne, keepLast_eq_nil_iff]
    intro happ
    have hdf0 : df0 = [] := (List.append_eq_nil.mp happ).1
    rw [hdf0] at hm0
    cases hm0
  obtain ⟨m1, hm1⟩ : ∃ m1, maxDate t1 = some m1 := by
    cases hmt : maxDate t1 with
    | none => exact absurd ((maxDate_eq_none_iff t1).mp hmt) ht1ne
    | some m1 => exact ⟨m1, rfl⟩
  have hy1ge : m0.year ≤ m1.year := by
    obtain ⟨r0, hr0, hr0d⟩ := maxDate_mem_dates hm0
    have hr0' : ∃ r ∈ t1, r.date = m0 := by
      rw [ht1]
      unfold mergeTables
      exact exists_date_keepLast_of_exists_date ⟨r0, List.mem_append_left _ hr0, hr0d⟩
    obtain ⟨s, hs, hsd⟩ := hr0'
    have hub := maxDate_isUB hm1 s hs
    rw [hsd] at hub
    exact year_le_of_dateLe hub
  have hy1le : m1.year ≤ c := by
    obtain ⟨s, hs, hsd⟩ := maxDate_mem_dates hm1
    rw [ht1] at hs
    have hs2 : s ∈ df0 ++ df1 := mem_of_mem_keepLast hs
    rcases List.mem_append.mp hs2 with h | h
    · have hub := year_le_of_dateLe (maxDate_isUB hm0 s h)
      rw [hsd] at hub
      omega
    · rw [hdf1] at h
      rcases List.mem_flatten.mp h with ⟨l, hl, hsl⟩
      rcases List.mem_map.mp hl with ⟨y, _, rfl⟩
      have hy := hdoc y s hsl
      rw [hsd] at hy
      exact hy
  have hsplit := @yearRange_split m0.year m1.year c hy1ge (by omega)
  have hdf1split : df1 =
      (((List.range (m1.year - m0.year)).map (fun i => m0.year + i)).map docT).flatten ++
        ((yearRange m1.year c).map docT).flatten := by
    rw [hdf1, hsplit, List.map_append, List.flatten_append]
  have hy1ne : yearRange m1.year c ≠ [] := yearRange_ne_nil hy1le
  have hall2 : ∀ y ∈ yearRange m1.year c, docT y ≠ [] := by
    intro y hy
    apply hall
    rw [mem_yearRange] at hy ⊢
    omega
  have hg2 := @get_dfs_some docT (yearRange m1.year c) hy1ne hall2
  rw [update_dfs_eq hm1 hg2, ht1]
  unfold mergeTables
  rw [hdf1split, ← List.append_assoc]
  rw [keepLast_absorb]

/-- C7 witness: a concrete table and document set on which the second
update run reproduces the first run's output. -/
theorem c7_update_idempotent_witness :
    update_dfs
        (fun y => if y = 2020 then [Row.mk ⟨2020, 12, 31⟩ [(1 : ℚ)]]
          else if y = 2021 then [Row.mk ⟨2021, 1, 4⟩ [(2 : ℚ)]] else [])
        2021
        [Row.mk ⟨2020, 12, 30⟩ [(3 : ℚ)]]
      = some [Row.mk ⟨2020, 12, 30⟩ [(3 : ℚ)], Row.mk ⟨2020, 12, 31⟩ [(1 : ℚ)],
          Row.mk ⟨2021, 1, 4⟩ [(2 : ℚ)]] ∧
    update_dfs
        (fun y => if y = 2020 then [Row.mk ⟨2020, 12, 31⟩ [(1 : ℚ)]]
          else if y = 2021 then [Row.mk ⟨2021, 1, 4⟩ [(2 : ℚ)]] else [])
        2021
        [Row.mk ⟨2020, 12, 30⟩ [(3 : ℚ)], Row.mk ⟨2020, 12, 31⟩ [(1 : ℚ)],
          Row.mk ⟨2021, 1, 4⟩ [(2 : ℚ)]]
      = some [Row.mk ⟨2020, 12, 30⟩ [(3 : ℚ)], Row.mk ⟨2020, 12, 31⟩ [(1 : ℚ)],
          Row.mk ⟨2021, 1, 4⟩ [(2 : ℚ)]] := by
  refine ⟨by decide, ?_⟩
  refine c7_update_idempotent _ 2021 [Row.mk ⟨2020, 12, 30⟩ [(3 : ℚ)]] _ ?_ (by decide)
  intro y r hr
  by_cases h20 : y = 2020
  · subst h20
    simp only [if_true] at hr
    rw [List.mem_singleton] at hr
    subst hr
    decide
  · by_cases h21 : y = 2021
    · subst h21
      simp only [h20, if_false, if_true] at hr
      rw [List.mem_singleton] at hr
      subst hr
      decide
    · simp only [h20, h21, if_false] at hr
      cases hr

/-! ## The cache-or-fetch policy and the error marker -/

theorem isPrefixOf_iff_append : ∀ (p l : List Char), p.isPrefixOf l = true ↔ ∃ t, p ++ t = l
  | [], l => by simp [List.isPrefixOf]
  | a :: p, [] => by simp [List.isPrefixOf]
  | a :: p, b :: l => by
    simp only [List.isPrefixOf, Bool.and_eq_true, beq_iff_eq]
    constructor
    · rintro ⟨rfl, h⟩
      obtain ⟨t, rfl⟩ := (isPrefixOf_iff_append p l).mp h
      exact ⟨t, rfl⟩
    · rintro ⟨t, ht⟩
      rw [List.cons_append] at ht
      injection ht with h1 h2
      exact ⟨h1, (isPrefixOf_iff_append p l).mpr ⟨t, h2⟩⟩

theorem containsSub_iff (p : List Char) :
    ∀ l, containsSub p l = true ↔ ∃ pre post, pre ++ p ++ post = l
  | [] => by
    simp only [containsSub, List.isEmpty_iff]
    constructor
    · rintro rfl
      exact ⟨[], [], rfl⟩
    · rintro ⟨pre, post, h⟩
      have h1 := List.append_eq_nil.mp h
      exact (List.append_eq_nil.mp h1.1).2
  | c :: rest => by
    simp only [containsSub, Bool.or_eq_true, isPrefixOf_iff_append, containsSub_iff p rest]
    constructor
    · rintro (⟨t, ht⟩ | ⟨pre, post, h⟩)
      · exact ⟨[], t, by simpa using ht⟩
      · refine ⟨c :: pre, post, ?_⟩
        rw [← h]
        simp
    · rintro ⟨pre, post, h⟩
      cases pre with
      | nil => exact Or.inl ⟨post, by simpa using h⟩
      | cons a pre' =>
        have h' : a :: (pre' ++ p ++ post) = c :: rest := by simpa using h
        injection h' with h1 h2
        exact Or.inr ⟨pre', post, h2⟩

theorem get_datapoints_fetch_branch (web : Nat → String) (ty : Nat) (cache : Cache)
    (year : Nat) (fw : Bool)
    (hcond : (fw || year == ty || (read_local_xml cache year).isNone) = true) :
    get_datapoints web ty cache year fw =
      match get_xml_content_from_web web year with
      | Except.ok content => ⟨Except.ok content, save_local_xml cache year content, true⟩
      | Except.error e => ⟨Except.error e, cache, true⟩ := by
  unfold get_datapoints
  rw [if_pos hcond]

theorem get_datapoints_cache_branch (web : Nat → String) (ty : Nat) (cache : Cache)
    (year : Nat) (fw : Bool)
    (hcond : ¬((fw || year == ty || (read_local_xml cache year).isNone) = true)) :
    get_datapoints web ty cache year fw =
      ⟨Except.ok ((read_local_xml cache year).getD ""), cache, false⟩ := by
  unfold get_datapoints
  rw [if_neg hcond]

/-- C3: cache-or-fetch policy of `get_datapoints` — a network request is
issued exactly when `from_web` is set, or the year is the current year,
or no cache file exists for the year (in particular a cached past year
without `from_web` is served locally, and the current year always hits
the network); a successfully fetched document is written to the cache
before returning, and a purely cached read leaves the cache unchanged. -/
theorem c3_cache_or_fetch_policy (web : Nat → String) (todayYear : Nat) (cache : Cache)
    (year : Nat) (from_web : Bool) :
    ((get_datapoints web todayYear cache year from_web).fetchedFromWeb = true ↔
      (from_web = true ∨ year = todayYear ∨ read_local_xml cache year = none)) ∧
    (∀ content, (get_datapoints web todayYear cache year from_web).result = Except.ok content →
      (get_datapoints web todayYear cache year from_web).fetchedFromWeb = true →
      read_local_xml (get_datapoints web todayYear cache year from_web).cache year
        = some content) ∧
    ((get_datapoints web todayYear cache year from_web).fetchedFromWeb = false →
      (get_datapoints web todayYear cache year from_web).cache = cache) := by
  by_cases hcond : (from_web || year == todayYear || (read_local_xml cache year).isNone) = true
  · have hcond' : from_web = true ∨ year = todayYear ∨ read_local_xml cache year = none := by
      simpa [Option.isNone_iff_eq_none, or_assoc] using hcond
    cases hx : get_xml_content_from_web web year with
    | ok content =>
      rw [get_datapoints_fetch_branch web todayYear cache year from_web hcond, hx]
      refine ⟨by simpa using hcond', ?_, ?_⟩
      · intro c' hc' _
        have hc'' : content = c' := by
          injection hc'
        subst hc''
        simp [save_local_xml, read_local_xml]
      · intro h
        exact Bool.noConfusion h
    | error e =>
      rw [get_datapoints_fetch_branch web todayYear cache year from_web hcond, hx]
      refine ⟨by simpa using hcond', ?_, ?_⟩
      · intro c' hc'
        exact Except.noConfusion hc'
      · intro h
        exact Bool.noConfusion h
  · have hcond' : from_web = false ∧ ¬(year = todayYear) ∧
        ¬(read_local_xml cache year = none) := by
      simpa [Option.isNone_iff_eq_none, not_or, and_assoc] using hcond
    rw [get_datapoints_cache_branch web todayYear cache year from_web hcond]
    refine ⟨?_, ?_, fun _ => rfl⟩
    · simp [hcond'.1, hcond'.2.1, hcond'.2.2]
    · intro c' _ hf
      exact Bool.noConfusion hf

/-- C3 witness: a cached past year with `from_web = false` is served
without a network request. -/
theorem c3_cache_or_fetch_policy_witness :
    ((get_datapoints (fun _ => "<feed/>") 2024 [(2021, "<cached/>")] 2021 false).fetchedFromWeb
        = true ↔
      ((false : Bool) = true ∨ 2021 = 2024 ∨ read_local_xml [(2021, "<cached/>")] 2021 = none)) ∧
    (∀ content,
      (get_datapoints (fun _ => "<feed/>") 2024 [(2021, "<cached/>")] 2021 false).result
          = Except.ok content →
      (get_datapoints (fun _ => "<feed/>") 2024 [(2021, "<cached/>")] 2021 false).fetchedFromWeb
          = true →
      read_local_xml
          (get_datapoints (fun _ => "<feed/>") 2024 [(2021, "<cached/>")] 2021 false).cache 2021
        = some content) ∧
    ((get_datapoints (fun _ => "<feed/>") 2024 [(2021, "<cached/>")] 2021 false).fetchedFromWeb
        = false →
      (get_datapoints (fun _ => "<feed/>") 2024 [(2021, "<cached/>")] 2021 false).cache
        = [(2021, "<cached/>")]) :=
  c3_cache_or_fetch_policy (fun _ => "<feed/>") 2024 [(2021, "<cached/>")] 2021 false

/-- C4: error-marker detection — `get_xml_content_from_web` raises
exactly when the body contains the literal substring `"Error"`, returns
the body unchanged otherwise, and a marker-bearing body is never written
to the cache by the fetch path of `get_datapoints`. -/
theorem c4_error_marker_detection (web : Nat → String) (year : Nat) :
    ((∃ e, get_xml_content_from_web web year = Except.error e) ↔
      ∃ pre post, pre ++ "Error".toList ++ post = (web year).toList) ∧
    (∀ s, get_xml_content_from_web web year = Except.ok s → s = web year) ∧
    (∀ todayYear cache from_web, containsError (web year) = true →
      (get_datapoints web todayYear cache year from_web).cache = cache) := by
  refine ⟨?_, ?_, ?_⟩
  · rw [← containsSub_iff "Error".toList (web year).toList]
    show (∃ e, get_xml_content_from_web web year = Except.error e) ↔
      containsError (web year) = true
    unfold get_xml_content_from_web get_web_xml
    by_cases h : containsError (web year) = true
    · rw [if_pos h, h]
      simp
    · rw [if_neg h]
      have h' : containsError (web year) = false := by simpa using h
      rw [h']
      simp
  · intro s hs
    unfold get_xml_content_from_web get_web_xml at hs
    by_cases h : containsError (web year) = true
    · rw [if_pos h] at hs
      exact Except.noConfusion hs
    · rw [if_neg h] at hs
      injection hs with h1
      exact h1.symm
  · intro todayYear cache from_web hmark
    by_cases hcond : (from_web || year == todayYear || (read_local_xml cache year).isNone) = true
    · rw [get_datapoints_fetch_branch web todayYear cache year from_web hcond]
      have hx : get_xml_content_from_web web year
          = Except.error "Cannot read year from web. Try again later." := by
        unfold get_xml_content_from_web get_web_xml
        rw [if_pos hmark]
      rw [hx]
    · rw [get_datapoints_cache_branch web todayYear cache year from_web hcond]

/-- C4 witness: a body carrying the marker raises and leaves the cache
alone. -/
theorem c4_error_marker_detection_witness :
    ((∃ e, get_xml_content_from_web (fun _ => "<html>Error</html>") 2021 = Except.error e) ↔
      ∃ pre post, pre ++ "Error".toList ++ post = ((fun _ : Nat => "<html>Error</html>") 2021).toList) ∧
    (∀ s, get_xml_content_from_web (fun _ => "<html>Error</html>") 2021 = Except.ok s →
      s = (fun _ : Nat => "<html>Error</html>") 2021) ∧
    (∀ todayYear cache from_web,
      containsError ((fun _ : Nat => "<html>Error</html>") 2021) = true →
      (get_datapoints (fun _ => "<html>Error</html>") todayYear cache 2021 from_web).cache
        = cache) :=
  c4_error_marker_detection (fun _ => "<html>Error</html>") 2021

/-! ## Parser claims -/

theorem mapM_asFloat_of_found (datum : List Elem) :
    ∀ keys : List String, (∀ k ∈ keys, (bs_find datum k).isSome) →
      (keys.mapM (fun key => do
          let t ← bs_text (bs_find datum key)
          Except.ok (as_float t)) : Except String (List ℚ))
        = Except.ok (keys.map (fun k => as_float (findText datum k))) := by
  intro keys
  induction keys with
  | nil => intro _; rfl
  | cons k ks ih =>
    intro h
    have hk := h k (List.mem_cons_self _ _)
    obtain ⟨e, he⟩ := Option.isSome_iff_exists.mp hk
    rw [List.mapM_cons, he]
    have hrest := ih (fun k2 hk2 => h k2 (List.mem_cons_of_mem _ hk2))
    rw [hrest, List.map_cons]
    simp only [bs_text, findText, he, Option.map_some, Option.getD_some]
    rfl

/-- C5 counterexample: an entry carrying a well-formed date and eleven of
the twelve yield elements, but no `BC_30YEARDISPLAY` element at all (a
missing value).  The parser does not yield a record with that field equal
to zero; it raises (`None.text` is an `AttributeError`), so the claim's
"including … missing values" case fails on the code. -/
theorem c5_missing_element_raises_counterexample :
    yield_datapoints_from_string
        ⟨[[Elem.mk "NEW_DATE" "2021-01-04T00:00:00",
           Elem.mk "BC_1MONTH" "0.08", Elem.mk "BC_3MONTH" "0.09",
           Elem.mk "BC_6MONTH" "0.09", Elem.mk "BC_1YEAR" "0.10",
           Elem.mk "BC_2YEAR" "0.11", Elem.mk "BC_3YEAR" "0.16",
           Elem.mk "BC_5YEAR" "0.36", Elem.mk "BC_7YEAR" "0.64",
           Elem.mk "BC_10YEAR" "0.93", Elem.mk "BC_20YEAR" "1.46",
           Elem.mk "BC_30YEAR" "1.66"]], []⟩
      = Except.error "AttributeError" := by
  decide

/-- C5 (amended): zero-default numeric coercion holds for every field
whose element is present — if its text fails to parse as a decimal
(including the empty text of the known 30-year gaps), `as_float` turns
the failure into `0` and no error is propagated; the record is produced
with `as_float` of each field's text.  (An entry missing a field element
altogether instead makes the parser raise, per the counterexample.) -/
theorem c5_amended_zero_default (datum : List Elem) (d : String)
    (hfind : ∀ k ∈ BC_KEYS, (bs_find datum k).isSome)
    (hdate : ∃ e, bs_find datum "NEW_DATE" = some e ∧
      get_date (PyVal.str e.text) = Except.ok d) :
    parseContentEntry datum =
      Except.ok ⟨d, BC_KEYS.map (fun k => as_float (findText datum k))⟩ ∧
    (∀ s, parseFloat s.toList = none → as_float s = 0) := by
  constructor
  · unfold parseContentEntry
    rw [mapM_asFloat_of_found datum BC_KEYS hfind]
    obtain ⟨e, he, hd⟩ := hdate
    rw [he]
    exact (show (get_date (PyVal.str e.text) >>= fun d2 =>
        Except.ok (⟨d2, BC_KEYS.map (fun k => as_float (findText datum k))⟩ : Point))
        = Except.ok ⟨d, BC_KEYS.map (fun k => as_float (findText datum k))⟩ by
      rw [hd]
      rfl)
  · intro s hs
    unfold as_float
    rw [hs]

/-- C5 witness for the amended statement: an entry whose `BC_30YEAR` text
is empty (the historical gap) parses to a record with that field `0`. -/
theorem c5_amended_zero_default_witness :
    (∀ k ∈ BC_KEYS,
      (bs_find [Elem.mk "NEW_DATE" "2002-04-01T00:00:00",
        Elem.mk "BC_1MONTH" "1.73", Elem.mk "BC_3MONTH" "1.79",
        Elem.mk "BC_6MONTH" "1.91", Elem.mk "BC_1YEAR" "2.19",
        Elem.mk "BC_2YEAR" "3.03", Elem.mk "BC_3YEAR" "3.64",
        Elem.mk "BC_5YEAR" "4.28", Elem.mk "BC_7YEAR" "4.72",
        Elem.mk "BC_10YEAR" "5.04", Elem.mk "BC_20YEAR" "5.70",
        Elem.mk "BC_30YEAR" "", Elem.mk "BC_30YEARDISPLAY" ""] k).isSome) ∧
    parseContentEntry [Elem.mk "NEW_DATE" "2002-04-01T00:00:00",
        Elem.mk "BC_1MONTH" "1.73", Elem.mk "BC_3MONTH" "1.79",
        Elem.mk "BC_6MONTH" "1.91", Elem.mk "BC_1YEAR" "2.19",
        Elem.mk "BC_2YEAR" "3.03", Elem.mk "BC_3YEAR" "3.64",
        Elem.mk "BC_5YEAR" "4.28", Elem.mk "BC_7YEAR" "4.72",
        Elem.mk "BC_10YEAR" "5.04", Elem.mk "BC_20YEAR" "5.70",
        Elem.mk "BC_30YEAR" "", Elem.mk "BC_30YEARDISPLAY" ""]
      = Except.ok ⟨"2002-04-01", BC_KEYS.map (fun k =>
          as_float (findText [Elem.mk "NEW_DATE" "2002-04-01T00:00:00",
            Elem.mk "BC_1MONTH" "1.73", Elem.mk "BC_3MONTH" "1.79",
            Elem.mk "BC_6MONTH" "1.91", Elem.mk "BC_1YEAR" "2.19",
            Elem.mk "BC_2YEAR" "3.03", Elem.mk "BC_3YEAR" "3.64",
            Elem.mk "BC_5YEAR" "4.28", Elem.mk "BC_7YEAR" "4.72",
            Elem.mk "BC_10YEAR" "5.04", Elem.mk "BC_20YEAR" "5.70",
            Elem.mk "BC_30YEAR" "", Elem.mk "BC_30YEARDISPLAY" ""] k))⟩ ∧
    (∀ s, parseFloat s.toList = none → as_float s = 0) := by
  have h := c5_amended_zero_default
    [Elem.mk "NEW_DATE" "2002-04-01T00:00:00",
      Elem.mk "BC_1MONTH" "1.73", Elem.mk "BC_3MONTH" "1.79",
      Elem.mk "BC_6MONTH" "1.91", Elem.mk "BC_1YEAR" "2.19",
      Elem.mk "BC_2YEAR" "3.03", Elem.mk "BC_3YEAR" "3.64",
      Elem.mk "BC_5YEAR" "4.28", Elem.mk "BC_7YEAR" "4.72",
      Elem.mk "BC_10YEAR" "5.04", Elem.mk "BC_20YEAR" "5.70",
      Elem.mk "BC_30YEAR" "", Elem.mk "BC_30YEARDISPLAY" ""]
    "2002-04-01" (by decide)
    ⟨Elem.mk "NEW_DATE" "2002-04-01T00:00:00", by decide, by decide⟩
  exact ⟨by decide, h.1, h.2⟩

/-- C6: evaluation at the failing input — a document in the alternative
`properties` shape contains no `content` entries, and
`yield_datapoints_from_string` silently returns the empty record set with
no error, where the specified behaviour is a loud `ParseError`. -/
theorem c6_unsupported_shape_silently_empty :
    yield_datapoints_from_string
        ⟨[], [[Elem.mk "NEW_DATE" "2021-01-04T00:00:00", Elem.mk "BC_10YEAR" "0.96"]]⟩
      = Except.ok [] := rfl

theorem parsePropEntry_always_fails (prop : List Elem) :
    ∃ e, parsePropEntry prop = Except.error e := by
  unfold parsePropEntry
  cases hf : bs_find prop "NEW_DATE" with
  | none =>
    exact ⟨"TypeError", rfl⟩
  | some e =>
    exact ⟨"TypeError", rfl⟩

/-- C9: the alternative properties-shaped parser
`yield_datapoints_from_string_2` raises on every document in which it
finds at least one entry — it hands the `NEW_DATE` element itself (or
`None`), never its text, to `strptime`, a `TypeError` — and consequently
it never successfully yields any record. -/
theorem c9_alternative_parser_always_fails (doc : XmlDoc) :
    (doc.properties ≠ [] → ∃ e, yield_datapoints_from_string_2 doc = Except.error e) ∧
    (∀ l, yield_datapoints_from_string_2 doc = Except.ok l → l = []) := by
  constructor
  · intro hne
    obtain ⟨p, ps, hp⟩ : ∃ p ps, doc.properties = p :: ps := by
      cases hps : doc.properties with
      | nil => exact absurd hps hne
      | cons p ps => exact ⟨p, ps, rfl⟩
    obtain ⟨e, he⟩ := parsePropEntry_always_fails p
    refine ⟨e, ?_⟩
    unfold yield_datapoints_from_string_2
    rw [hp, List.mapM_cons, he]
    rfl
  · intro l hl
    cases hps : doc.properties with
    | nil =>
      unfold yield_datapoints_from_string_2 at hl
      rw [hps, List.mapM_nil] at hl
      have hl' : Except.ok ([] : List Point2) = Except.ok l := hl
      injection hl' with h1
      exact h1.symm
    | cons p ps =>
      obtain ⟨e, he⟩ := parsePropEntry_always_fails p
      unfold yield_datapoints_from_string_2 at hl
      rw [hps, List.mapM_cons, he] at hl
      have hl' : (Except.error e : Except String (List Point2)) = Except.ok l := hl
      exact Except.noConfusion hl'

/-- C9 witness: a concrete one-entry properties document on which the
alternative parser raises. -/
theorem c9_alternative_parser_always_fails_witness :
    (([[Elem.mk "NEW_DATE" "2021-01-04T00:00:00", Elem.mk "BC_10YEAR" "0.96"]]
        : List (List Elem)) ≠ []) ∧
    (∃ e, yield_datapoints_from_string_2
        ⟨[], [[Elem.mk "NEW_DATE" "2021-01-04T00:00:00", Elem.mk "BC_10YEAR" "0.96"]]⟩
      = Except.error e) ∧
    (∀ l, yield_datapoints_from_string_2
        ⟨[], [[Elem.mk "NEW_DATE" "2021-01-04T00:00:00", Elem.mk "BC_10YEAR" "0.96"]]⟩
      = Except.ok l → l = []) := by
  have h := c9_alternative_parser_always_fails
    ⟨[], [[Elem.mk "NEW_DATE" "2021-01-04T00:00:00", Elem.mk "BC_10YEAR" "0.96"]]⟩
  exact ⟨by decide, h.1 (by decide), h.2⟩

/-- C10: `to_monthly_average` on a non-empty daily table produces one row
per calendar month of the continuous span from the earliest to the latest
date — every in-span month is present, a month with no daily records
appearing with all-missing (`NaN`) averaged fields — and on a month with
records each field is the column mean rounded to two decimals. -/
theorem c10_monthly_average_full_span (df : List Row) (lo hi : Date)
    (hlo : minDate df = some lo) (hhi : maxDate df = some hi) :
    ((to_monthly_average df).map (fun r => (r.year, r.month)) = monthSpan lo hi) ∧
    (∀ y m, 1 ≤ m → m ≤ 12 → monthKey lo.year lo.month ≤ monthKey y m →
      monthKey y m ≤ monthKey hi.year hi.month →
      ∃ r ∈ to_monthly_average df, r.year = y ∧ r.month = m ∧
        (rowsInMonth df y m = [] → r.vals = List.replicate BC_KEYS.length none)) ∧
    (∀ r ∈ to_monthly_average df, rowsInMonth df r.year r.month ≠ [] →
      r.vals = (List.range BC_KEYS.length).map
        (fun j => some (round2 (colMean (rowsInMonth df r.year r.month) j)))) := by
  have hdef : to_monthly_average df = (monthSpan lo hi).map (fun ym =>
      let rows := rowsInMonth df ym.1 ym.2
      ⟨ym.1, ym.2,
        if rows.isEmpty then List.replicate BC_KEYS.length (none : Option ℚ)
        else (List.range BC_KEYS.length).map (fun j => some (round2 (colMean rows j)))⟩) := by
    unfold to_monthly_average
    rw [hlo, hhi]
  refine ⟨?_, ?_, ?_⟩
  · rw [hdef, List.map_map]
    conv_rhs => rw [← List.map_id (monthSpan lo hi)]
    refine List.map_congr_left ?_
    intro ym _
    rfl
  · intro y m h1 h12 hge hle
    have hmem : (y, m) ∈ monthSpan lo hi := by
      unfold monthSpan
      refine List.mem_map.mpr
        ⟨monthKey y m - monthKey lo.year lo.month, List.mem_range.mpr (by omega), ?_⟩
      have hplus : monthKey lo.year lo.month +
          (monthKey y m - monthKey lo.year lo.month) = monthKey y m := by omega
      rw [hplus]
      unfold keyToYM monthKey
      have hdiv : (y * 12 + (m - 1)) / 12 = y := by omega
      have hmod : (y * 12 + (m - 1)) % 12 = m - 1 := by omega
      rw [hdiv, hmod]
      have hm1 : m - 1 + 1 = m := by omega
      rw [hm1]
    rw [hdef]
    refine ⟨_, List.mem_map.mpr ⟨(y, m), hmem, rfl⟩, rfl, rfl, ?_⟩
    intro hempty
    simp [hempty]
  · intro r hr hne
    rw [hdef] at hr
    obtain ⟨ym, hym, rfl⟩ := List.mem_map.mp hr
    have hieF : (rowsInMonth df ym.1 ym.2).isEmpty = false := by
      simpa [List.isEmpty_iff] using hne
    simp [hieF]

/-- C10 witness: a table with records in 2021-01 and 2021-03 only; the
span contains February 2021 as an empty (all-`NaN`) row. -/
theorem c10_monthly_average_full_span_witness :
    (((to_monthly_average [Row.mk ⟨2021, 1, 4⟩ [(1 : ℚ)], Row.mk ⟨2021, 3, 1⟩ [(2 : ℚ)]]).map
        (fun r => (r.year, r.month)) = monthSpan ⟨2021, 1, 4⟩ ⟨2021, 3, 1⟩) ∧
    (∀ y m, 1 ≤ m → m ≤ 12 →
      monthKey (2021 : Nat) 1 ≤ monthKey y m → monthKey y m ≤ monthKey 2021 3 →
      ∃ r ∈ to_monthly_average [Row.mk ⟨2021, 1, 4⟩ [(1 : ℚ)], Row.mk ⟨2021, 3, 1⟩ [(2 : ℚ)]],
        r.year = y ∧ r.month = m ∧
        (rowsInMonth [Row.mk ⟨2021, 1, 4⟩ [(1 : ℚ)], Row.mk ⟨2021, 3, 1⟩ [(2 : ℚ)]] y m = [] →
          r.vals = List.replicate BC_KEYS.length none)) ∧
    (∀ r ∈ to_monthly_average [Row.mk ⟨2021, 1, 4⟩ [(1 : ℚ)], Row.mk ⟨2021, 3, 1⟩ [(2 : ℚ)]],
      rowsInMonth [Row.mk ⟨2021, 1, 4⟩ [(1 : ℚ)], Row.mk ⟨2021, 3, 1⟩ [(2 : ℚ)]]
          r.year r.month ≠ [] →
      r.vals = (List.range BC_KEYS.length).map (fun j => some (round2 (colMean
        (rowsInMonth [Row.mk ⟨2021, 1, 4⟩ [(1 : ℚ)], Row.mk ⟨2021, 3, 1⟩ [(2 : ℚ)]]
          r.year r.month) j))))) :=
  c10_monthly_average_full_span
    [Row.mk ⟨2021, 1, 4⟩ [(1 : ℚ)], Row.mk ⟨2021, 3, 1⟩ [(2 : ℚ)]]
    ⟨2021, 1, 4⟩ ⟨2021, 3, 1⟩ (by decide) (by decide)

/-! ## Digit strings: rendering and re-parsing -/

theorem digitChar_toNat {d : Nat} (h : d < 10) : (digitChar d).toNat = 48 + d := by
  interval_cases d <;> decide

theorem digitChar_isDigit {d : Nat} (h : d < 10) : (digitChar d).isDigit = true := by
  interval_cases d <;> decide

theorem digitChar_ne_sign {d : Nat} (h : d < 10) :
    digitChar d ≠ '-' ∧ digitChar d ≠ '+' := by
  interval_cases d <;> exact ⟨by decide, by decide⟩

theorem natDigitsAux_ne_nil : ∀ fuel n, natDigitsAux fuel n ≠ [] := by
  intro fuel
  cases fuel with
  | zero => intro n h; cases h
  | succ fuel =>
    intro n
    unfold natDigitsAux
    by_cases h : n < 10
    · rw [if_pos h]
      intro he; cases he
    · rw [if_neg h]
      intro he
      cases List.append_eq_nil.mp he with
      | intro h1 h2 => cases h2

theorem natDigitsAux_lt : ∀ fuel n, n ≤ fuel → ∀ d ∈ natDigitsAux fuel n, d < 10 := by
  intro fuel
  induction fuel with
  | zero =>
    intro n hn d hd
    have : n = 0 := by omega
    subst this
    simp [natDigitsAux] at hd
    omega
  | succ fuel ih =>
    intro n hn d hd
    unfold natDigitsAux at hd
    by_cases h : n < 10
    · rw [if_pos h] at hd
      simp at hd
      omega
    · rw [if_neg h] at hd
      rcases List.mem_append.mp hd with h2 | h2
      · exact ih (n / 10) (by omega) d h2
      · simp at h2
        omega

theorem natDigitsAux_foldl : ∀ fuel n, n ≤ fuel →
    (natDigitsAux fuel n).foldl (fun a d => 10 * a + d) 0 = n := by
  intro fuel
  induction fuel with
  | zero =>
    intro n hn
    have : n = 0 := by omega
    subst this
    rfl
  | succ fuel ih =>
    intro n hn
    unfold natDigitsAux
    by_cases h : n < 10
    · rw [if_pos h]
      simp
    · rw [if_neg h]
      rw [List.foldl_append]
      rw [ih (n / 10) (by omega)]
      simp
      omega

theorem natDigitsAux_length_le : ∀ fuel n k, 1 ≤ k → n ≤ fuel → n < 10 ^ k →
    (natDigitsAux fuel n).length ≤ k := by
  intro fuel
  induction fuel with
  | zero =>
    intro n k hk hn _
    have : n = 0 := by omega
    subst this
    simpa [natDigitsAux] using hk
  | succ fuel ih =>
    intro n k hk hn hpow
    unfold natDigitsAux
    by_cases h : n < 10
    · rw [if_pos h]
      simpa using hk
    · rw [if_neg h]
      rw [List.length_append]
      have hk2 : 2 ≤ k := by
        by_contra hc
        have : k = 1 := by omega
        subst this
        simp at hpow
        omega
      have hdivlt : n / 10 < 10 ^ (k - 1) := by
        have h1 : n / 10 * 10 ≤ n := Nat.div_mul_le_self n 10
        have h2 : 10 ^ k = 10 ^ (k - 1) * 10 := by
          rw [← pow_succ]
          congr 1
          omega
        rw [h2] at hpow
        by_contra hc
        push_neg at hc
        have : 10 ^ (k - 1) * 10 ≤ n / 10 * 10 := by
          exact Nat.mul_le_mul_right 10 hc
        omega
      have := ih (n / 10) (k - 1) (by omega) (by omega) hdivlt
      simp
      omega

theorem charsVal_map_digitChar : ∀ (l : List Nat) (a : Nat), (∀ d ∈ l, d < 10) →
    (l.map digitChar).foldl (fun acc c => 10 * acc + (c.toNat - 48)) a
      = l.foldl (fun acc d => 10 * acc + d) a := by
  intro l
  induction l with
  | nil => intro a _; rfl
  | cons d ds ih =>
    intro a h
    have hd : d < 10 := h d (List.mem_cons_self _ _)
    rw [List.map_cons, List.foldl_cons, List.foldl_cons]
    rw [digitChar_toNat hd]
    have : 48 + d - 48 = d := by omega
    rw [this]
    exact ih _ (fun d2 hd2 => h d2 (List.mem_cons_of_mem _ hd2))

theorem charsVal_natChars (n : Nat) : charsVal (natChars n) = n := by
  unfold charsVal natChars natDigits
  rw [charsVal_map_digitChar _ 0 (natDigitsAux_lt n n (le_refl n))]
  exact natDigitsAux_foldl n n (le_refl n)

theorem foldl_replicate_zero : ∀ m a, a = 0 →
    (List.replicate m '0').foldl (fun acc c => 10 * acc + (c.toNat - 48)) a = 0 := by
  intro m
  induction m with
  | zero => intro a ha; simpa using ha
  | succ m ih =>
    intro a ha
    rw [List.replicate_succ, List.foldl_cons]
    exact ih _ (by subst ha; decide)

theorem charsVal_padZeros (k : Nat) (l : List Char) :
    charsVal (padZeros k l) = charsVal l := by
  unfold charsVal padZeros
  rw [List.foldl_append, foldl_replicate_zero _ 0 rfl]

theorem padZeros_length {k : Nat} {l : List Char} (h : l.length ≤ k) :
    (padZeros k l).length = k := by
  unfold padZeros
  rw [List.length_append, List.length_replicate]
  omega

theorem natChars_length_le {n k : Nat} (hk : 1 ≤ k) (h : n < 10 ^ k) :
    (natChars n).length ≤ k := by
  unfold natChars natDigits
  rw [List.length_map]
  exact natDigitsAux_length_le n n k hk (le_refl n) h

theorem natChars_digits {n : Nat} : ∀ c ∈ natChars n, c.isDigit = true := by
  intro c hc
  rcases List.mem_map.mp hc with ⟨d, hd, rfl⟩
  exact digitChar_isDigit (natDigitsAux_lt n n (le_refl n) d hd)

theorem padZeros_digits {k : Nat} {l : List Char} (h : ∀ c ∈ l, c.isDigit = true) :
    ∀ c ∈ padZeros k l, c.isDigit = true := by
  intro c hc
  rcases List.mem_append.mp hc with h2 | h2
  · have := List.eq_of_mem_replicate h2
    subst this
    decide
  · exact h c h2

theorem natChars_ne_nil (n : Nat) : natChars n ≠ [] := by
  unfold natChars natDigits
  intro h
  exact natDigitsAux_ne_nil n n (List.map_eq_nil_iff.mp h)

theorem takeWhile_append_not (p : Char → Bool) :
    ∀ (A : List Char) (x : Char) (B : List Char), (∀ c ∈ A, p c = true) → p x = false →
      (A ++ x :: B).takeWhile p = A ∧ (A ++ x :: B).dropWhile p = x :: B := by
  intro A
  induction A with
  | nil =>
    intro x B _ hx
    constructor
    · simp [List.takeWhile_cons, hx]
    · simp [List.dropWhile_cons, hx]
  | cons a A ih =>
    intro x B h hx
    have ha : p a = true := h a (List.mem_cons_self _ _)
    have := ih x B (fun c hc => h c (List.mem_cons_of_mem _ hc)) hx
    constructor
    · rw [List.cons_append, List.takeWhile_cons, ha]
      simp only [if_true]
      rw [this.1]
    · rw [List.cons_append, List.dropWhile_cons, ha]
      simp only [if_true]
      exact this.2

theorem parseSign_neg (t : List Char) : parseSign ('-' :: t) = (-1, t) := by
  simp [parseSign]

theorem parseSign_digit {c : Char} (t : List Char) (h1 : c ≠ '-') (h2 : c ≠ '+') :
    parseSign (c :: t) = (1, c :: t) := by
  simp [parseSign, h1, h2]

theorem parseFloat_core (I F : List Char)
    (hI : ∀ c ∈ I, c.isDigit = true) (hIne : I ≠ [])
    (hF : ∀ c ∈ F, c.isDigit = true)
    (hsign : parseSign (I ++ '.' :: F) = (1, I ++ '.' :: F)) :
    parseFloat (I ++ '.' :: F)
      = some ((charsVal I : ℚ) + (charsVal F : ℚ) / (10 : ℚ) ^ F.length) := by
  obtain ⟨htake, hdrop⟩ := takeWhile_append_not (fun c => c.isDigit) I '.' F hI (by decide)
  unfold parseFloat
  rw [hsign]
  simp only [htake, hdrop]
  have hFall : F.all (fun d => d.isDigit) = true := List.all_eq_true.mpr hF
  have hInotEmpty : I.isEmpty = false := by
    cases I with
    | nil => exact absurd rfl hIne
    | cons a as => rfl
  simp [hFall, hInotEmpty]

theorem parseFloat_signed_core (I F : List Char)
    (hI : ∀ c ∈ I, c.isDigit = true) (hIne : I ≠ [])
    (hF : ∀ c ∈ F, c.isDigit = true) :
    parseFloat ('-' :: (I ++ '.' :: F))
      = some (-1 * ((charsVal I : ℚ) + (charsVal F : ℚ) / (10 : ℚ) ^ F.length)) := by
  obtain ⟨htake, hdrop⟩ := takeWhile_append_not (fun c => c.isDigit) I '.' F hI (by decide)
  unfold parseFloat
  rw [parseSign_neg]
  simp only [htake, hdrop]
  have hFall : F.all (fun d => d.isDigit) = true := List.all_eq_true.mpr hF
  have hInotEmpty : I.isEmpty = false := by
    cases I with
    | nil => exact absurd rfl hIne
    | cons a as => rfl
  simp [hFall, hInotEmpty]

theorem parseFloat_unsigned_core (I F : List Char)
    (hI : ∀ c ∈ I, c.isDigit = true) (hIne : I ≠ [])
    (hF : ∀ c ∈ F, c.isDigit = true) :
    parseFloat (I ++ '.' :: F)
      = some ((charsVal I : ℚ) + (charsVal F : ℚ) / (10 : ℚ) ^ F.length) := by
  refine parseFloat_core I F hI hIne hF ?_
  cases I with
  | nil => exact absurd rfl hIne
  | cons a as =>
    have ha : a.isDigit = true := hI a (List.mem_cons_self _ _)
    have h1 : a ≠ '-' := by
      intro he
      rw [he] at ha
      cases ha
    have h2 : a ≠ '+' := by
      intro he
      rw [he] at ha
      cases ha
    rw [List.cons_append]
    exact parseSign_digit _ h1 h2

theorem den_dvd_pow10 (q : ℚ) (hq : isDecimal q = true) :
    q.den ∣ 10 ^ (max (max (facPow 2 q.den) (facPow 5 q.den)) 1) := by
  have hden : q.den = 2 ^ facPow 2 q.den * 5 ^ facPow 5 q.den := by
    simpa [isDecimal] using hq
  have h2 : (2 : Nat) ^ facPow 2 q.den ∣ 2 ^ (max (max (facPow 2 q.den) (facPow 5 q.den)) 1) :=
    pow_dvd_pow 2 (by omega)
  have h5 : (5 : Nat) ^ facPow 5 q.den ∣ 5 ^ (max (max (facPow 2 q.den) (facPow 5 q.den)) 1) :=
    pow_dvd_pow 5 (by omega)
  have h10 : (10 : Nat) ^ (max (max (facPow 2 q.den) (facPow 5 q.den)) 1)
      = 2 ^ (max (max (facPow 2 q.den) (facPow 5 q.den)) 1)
        * 5 ^ (max (max (facPow 2 q.den) (facPow 5 q.den)) 1) := by
    rw [← Nat.mul_pow]
  rw [h10]
  calc q.den = 2 ^ facPow 2 q.den * 5 ^ facPow 5 q.den := hden
    _ ∣ _ := mul_dvd_mul h2 h5

theorem ratChars_value (q : ℚ) (k : Nat) (scaled : Nat) (sg : ℚ)
    (hmul : scaled * q.den = q.num.natAbs * 10 ^ k)
    (hsg : sg * (q.num.natAbs : ℚ) = (q.num : ℚ)) :
    sg * (((scaled / 10 ^ k : Nat) : ℚ) + ((scaled % 10 ^ k : Nat) : ℚ) / (10 : ℚ) ^ k)
      = q := by
  have h10 : ((10 : ℚ)) ^ k ≠ 0 := by positivity
  have hden : (q.den : ℚ) ≠ 0 := Nat.cast_ne_zero.mpr q.den_nz
  have hnat : scaled / 10 ^ k * 10 ^ k + scaled % 10 ^ k = scaled :=
    Nat.div_add_mod' scaled (10 ^ k)
  have hdecomp : ((scaled / 10 ^ k : Nat) : ℚ) + ((scaled % 10 ^ k : Nat) : ℚ) / (10 : ℚ) ^ k
      = (scaled : ℚ) / (10 : ℚ) ^ k := by
    have hcast := congrArg (fun n : Nat => (n : ℚ)) hnat
    push_cast at hcast
    field_simp
    linarith [hcast]
  rw [hdecomp]
  have hscast : (scaled : ℚ) * (q.den : ℚ) = (q.num.natAbs : ℚ) * (10 : ℚ) ^ k := by
    have hcast := congrArg (fun n : Nat => (n : ℚ)) hmul
    push_cast at hcast
    exact hcast
  have hq : q = (q.num : ℚ) / (q.den : ℚ) := (Rat.num_div_den q).symm
  rw [hq, ← hsg, mul_div_assoc]
  congr 1
  rw [div_eq_div_iff h10 hden]
  linarith [hscast]

theorem parseFloat_ratChars (q : ℚ) (hq : isDecimal q = true) :
    parseFloat (ratChars q) = some q := by
  have hk1 : 1 ≤ max (max (facPow 2 q.den) (facPow 5 q.den)) 1 := le_max_right _ _
  have hdvd : q.den ∣ 10 ^ (max (max (facPow 2 q.den) (facPow 5 q.den)) 1) :=
    den_dvd_pow10 q hq
  have hdvd2 : q.den ∣ q.num.natAbs * 10 ^ (max (max (facPow 2 q.den) (facPow 5 q.den)) 1) :=
    Dvd.dvd.mul_left hdvd _
  have hmul : q.num.natAbs * 10 ^ (max (max (facPow 2 q.den) (facPow 5 q.den)) 1) / q.den
        * q.den
      = q.num.natAbs * 10 ^ (max (max (facPow 2 q.den) (facPow 5 q.den)) 1) :=
    Nat.div_mul_cancel hdvd2
  have hpow_pos : 0 < 10 ^ (max (max (facPow 2 q.den) (facPow 5 q.den)) 1) :=
    Nat.pos_pow_of_pos _ (by omega)
  have hFlen : (padZeros (max (max (facPow 2 q.den) (facPow 5 q.den)) 1)
      (natChars (q.num.natAbs * 10 ^ (max (max (facPow 2 q.den) (facPow 5 q.den)) 1) / q.den
        % 10 ^ (max (max (facPow 2 q.den) (facPow 5 q.den)) 1)))).length
      = max (max (facPow 2 q.den) (facPow 5 q.den)) 1 :=
    padZeros_length (natChars_length_le hk1 (Nat.mod_lt _ hpow_pos))
  by_cases hneg : q.num < 0
  · have hsg : (-1 : ℚ) * (q.num.natAbs : ℚ) = (q.num : ℚ) := by
      have hcast : (q.num.natAbs : ℚ) = -(q.num : ℚ) := by
        rw [Nat.cast_natAbs, abs_of_neg hneg, Int.cast_neg]
      rw [hcast]
      ring
    have hshape : ratChars q = '-' ::
        (natChars (q.num.natAbs * 10 ^ (max (max (facPow 2 q.den) (facPow 5 q.den)) 1) / q.den
            / 10 ^ (max (max (facPow 2 q.den) (facPow 5 q.den)) 1)) ++
          '.' :: padZeros (max (max (facPow 2 q.den) (facPow 5 q.den)) 1)
            (natChars (q.num.natAbs * 10 ^ (max (max (facPow 2 q.den) (facPow 5 q.den)) 1) / q.den
              % 10 ^ (max (max (facPow 2 q.den) (facPow 5 q.den)) 1)))) := by
      unfold ratChars
      rw [if_pos hneg]
      rfl
    rw [hshape, parseFloat_signed_core _ _ natChars_digits (natChars_ne_nil _)
      (padZeros_digits natChars_digits)]
    rw [charsVal_natChars, charsVal_padZeros, charsVal_natChars, hFlen]
    rw [ratChars_value q _ _ _ hmul hsg]
  · have hsg : (1 : ℚ) * (q.num.natAbs : ℚ) = (q.num : ℚ) := by
      have hcast : (q.num.natAbs : ℚ) = (q.num : ℚ) := by
        rw [Nat.cast_natAbs, abs_of_nonneg (not_lt.mp hneg)]
      rw [one_mul, hcast]
    have hshape : ratChars q =
        natChars (q.num.natAbs * 10 ^ (max (max (facPow 2 q.den) (facPow 5 q.den)) 1) / q.den
            / 10 ^ (max (max (facPow 2 q.den) (facPow 5 q.den)) 1)) ++
          '.' :: padZeros (max (max (facPow 2 q.den) (facPow 5 q.den)) 1)
            (natChars (q.num.natAbs * 10 ^ (max (max (facPow 2 q.den) (facPow 5 q.den)) 1) / q.den
              % 10 ^ (max (max (facPow 2 q.den) (facPow 5 q.den)) 1))) := by
      unfold ratChars
      rw [if_neg hneg]
      rfl
    rw [hshape, parseFloat_unsigned_core _ _ natChars_digits (natChars_ne_nil _)
      (padZeros_digits natChars_digits)]
    rw [charsVal_natChars, charsVal_padZeros, charsVal_natChars, hFlen]
    have := ratChars_value q _ _ _ hmul hsg
    rw [one_mul] at this
    rw [this]

theorem list_len2 {l : List Char} (h : l.length = 2) : ∃ a b, l = [a, b] := by
  cases l with
  | nil => simp at h
  | cons a l1 =>
    cases l1 with
    | nil => simp at h
    | cons b l2 =>
      cases l2 with
      | nil => exact ⟨a, b, rfl⟩
      | cons c l3 => simp at h

theorem list_len4 {l : List Char} (h : l.length = 4) : ∃ a b c d, l = [a, b, c, d] := by
  cases l with
  | nil => simp at h
  | cons a l1 =>
    have h1 : l1.length = 3 := by simpa using h
    cases l1 with
    | nil => simp at h1
    | cons b l2 =>
      have h2 : l2.length = 2 := by simpa using h1
      obtain ⟨c, d, rfl⟩ := list_len2 h2
      exact ⟨a, b, c, d, rfl⟩

theorem parseYmd_dateChars (d : Date) (hy : d.year ≤ 9999) (hm : d.month ≤ 99)
    (hd : d.day ≤ 99) :
    parseYmd (dateChars d) = some d := by
  have hylen : (padZeros 4 (natChars d.year)).length = 4 :=
    padZeros_length (natChars_length_le (by omega) (lt_of_le_of_lt hy (by norm_num)))
  have hmlen : (padZeros 2 (natChars d.month)).length = 2 :=
    padZeros_length (natChars_length_le (by omega) (lt_of_le_of_lt hm (by norm_num)))
  have hdlen : (padZeros 2 (natChars d.day)).length = 2 :=
    padZeros_length (natChars_length_le (by omega) (lt_of_le_of_lt hd (by norm_num)))
  obtain ⟨y1, y2, y3, y4, hy4⟩ := list_len4 hylen
  obtain ⟨m1, m2, hm2⟩ := list_len2 hmlen
  obtain ⟨d1, d2, hd2⟩ := list_len2 hdlen
  have hyd : ∀ c ∈ [y1, y2, y3, y4], c.isDigit = true := by
    rw [← hy4]
    exact padZeros_digits natChars_digits
  have hmd : ∀ c ∈ [m1, m2], c.isDigit = true := by
    rw [← hm2]
    exact padZeros_digits natChars_digits
  have hdd : ∀ c ∈ [d1, d2], c.isDigit = true := by
    rw [← hd2]
    exact padZeros_digits natChars_digits
  have hdc : dateChars d = [y1, y2, y3, y4, '-', m1, m2, '-', d1, d2] := by
    unfold dateChars
    rw [hy4, hm2, hd2]
    rfl
  rw [hdc]
  have hcond : (([y1, y2, y3, y4, m1, m2, d1, d2].all (fun c => c.isDigit))
      && ('-' : Char) == '-' && ('-' : Char) == '-') = true := by
    have h8 : [y1, y2, y3, y4, m1, m2, d1, d2].all (fun c => c.isDigit) = true := by
      refine List.all_eq_true.mpr ?_
      intro c hc
      simp only [List.mem_cons, List.not_mem_nil, or_false] at hc
      rcases hc with rfl | rfl | rfl | rfl | rfl | rfl | rfl | rfl
      · exact hyd c (by simp)
      · exact hyd c (by simp)
      · exact hyd c (by simp)
      · exact hyd c (by simp)
      · exact hmd c (by simp)
      · exact hmd c (by simp)
      · exact hdd c (by simp)
      · exact hdd c (by simp)
    simp [h8]
  show (if (([y1, y2, y3, y4, m1, m2, d1, d2].all (fun c => c.isDigit))
      && ('-' : Char) == '-' && ('-' : Char) == '-') = true then
    some (⟨charsVal [y1, y2, y3, y4], charsVal [m1, m2], charsVal [d1, d2]⟩ : Date)
    else none) = some d
  rw [if_pos hcond]
  have hyv : charsVal [y1, y2, y3, y4] = d.year := by
    rw [← hy4, charsVal_padZeros, charsVal_natChars]
  have hmv : charsVal [m1, m2] = d.month := by
    rw [← hm2, charsVal_padZeros, charsVal_natChars]
  have hdv : charsVal [d1, d2] = d.day := by
    rw [← hd2, charsVal_padZeros, charsVal_natChars]
  rw [hyv, hmv, hdv]

theorem mapM_parseFloat_ratCell : ∀ vs : List ℚ, (∀ q ∈ vs, isDecimal q = true) →
    (vs.map ratCell).mapM (fun c => parseFloat c.toList) = some vs := by
  intro vs
  induction vs with
  | nil => intro _; rfl
  | cons q qs ih =>
    intro h
    rw [List.map_cons, List.mapM_cons]
    have hq : parseFloat (ratCell q).toList = some q := by
      show parseFloat (ratChars q) = some q
      exact parseFloat_ratChars q (h q (List.mem_cons_self _ _))
    rw [hq, ih (fun p hp => h p (List.mem_cons_of_mem _ hp))]
    rfl

theorem readCsvRow_roundTrip (r : Row) (hy : r.date.year ≤ 9999) (hm : r.date.month ≤ 99)
    (hd : r.date.day ≤ 99) (hvals : ∀ q ∈ r.vals, isDecimal q = true) :
    readCsvRow (dateCell r.date :: r.vals.map ratCell) = some r := by
  have hdate : parseYmd (dateCell r.date).toList = some r.date := by
    show parseYmd (dateChars r.date) = some r.date
    exact parseYmd_dateChars r.date hy hm hd
  show (do
    let d ← parseYmd (dateCell r.date).toList
    let vs ← (r.vals.map ratCell).mapM (fun c => parseFloat c.toList)
    pure (⟨d, vs⟩ : Row)) = some r
  rw [hdate, mapM_parseFloat_ratCell r.vals hvals]
  rfl

theorem rows_mapM_roundTrip : ∀ t : List Row,
    (∀ r ∈ t, r.date.year ≤ 9999 ∧ r.date.month ≤ 99 ∧ r.date.day ≤ 99) →
    (∀ r ∈ t, r.vals.length = 12) →
    (∀ r ∈ t, ∀ q ∈ r.vals, isDecimal q = true) →
    (t.map (fun r => dateCell r.date :: r.vals.map ratCell)).mapM
      (fun cells => if cells.length = csvHeader.length then readCsvRow cells else none)
      = some t := by
  intro t
  induction t with
  | nil => intro _ _ _; rfl
  | cons r rs ih =>
    intro hdates hlen hvals
    rw [List.map_cons, List.mapM_cons]
    have hlenr : (dateCell r.date :: r.vals.map ratCell).length = csvHeader.length := by
      have h1 := hlen r (List.mem_cons_self _ _)
      simp [csvHeader, BC_KEYS, h1]
    rw [if_pos hlenr]
    obtain ⟨hy, hm, hd⟩ := hdates r (List.mem_cons_self _ _)
    rw [readCsvRow_roundTrip r hy hm hd (hvals r (List.mem_cons_self _ _))]
    rw [ih (fun s hs => hdates s (List.mem_cons_of_mem _ hs))
      (fun s hs => hlen s (List.mem_cons_of_mem _ hs))
      (fun s hs => hvals s (List.mem_cons_of_mem _ hs))]
    rfl

/-- C8: persistence round trip — writing a rate table with calendar
dates (4-digit years) and twelve float-representable (finite-decimal)
yield values per row to the persisted delimited format and reading it
back, parsing the date column as the row key, reproduces the table
exactly: identical dates and identical yield values. -/
theorem c8_csv_round_trip (t : List Row)
    (hdates : ∀ r ∈ t, r.date.year ≤ 9999 ∧ r.date.month ≤ 99 ∧ r.date.day ≤ 99)
    (hlen : ∀ r ∈ t, r.vals.length = 12)
    (hvals : ∀ r ∈ t, ∀ q ∈ r.vals, isDecimal q = true) :
    readCsv (writeCsv t) = some t := by
  show (if csvHeader = csvHeader then
      (t.map (fun r => dateCell r.date :: r.vals.map ratCell)).mapM
        (fun cells => if cells.length = csvHeader.length then readCsvRow cells else none)
    else none) = some t
  rw [if_pos rfl]
  exact rows_mapM_roundTrip t hdates hlen hvals

/-- C8 witness: a one-row table with twelve decimal values survives the
round trip unchanged. -/
theorem c8_csv_round_trip_witness :
    (∀ r ∈ [Row.mk ⟨2021, 1, 4⟩ (List.replicate 12 (⟨211, 50, by decide, by decide⟩ : ℚ))],
      r.date.year ≤ 9999 ∧ r.date.month ≤ 99 ∧ r.date.day ≤ 99) ∧
    (∀ r ∈ [Row.mk ⟨2021, 1, 4⟩ (List.replicate 12 (⟨211, 50, by decide, by decide⟩ : ℚ))],
      r.vals.length = 12) ∧
    (∀ r ∈ [Row.mk ⟨2021, 1, 4⟩ (List.replicate 12 (⟨211, 50, by decide, by decide⟩ : ℚ))],
      ∀ q ∈ r.vals, isDecimal q = true) ∧
    readCsv (writeCsv
        [Row.mk ⟨2021, 1, 4⟩ (List.replicate 12 (⟨211, 50, by decide, by decide⟩ : ℚ))])
      = some [Row.mk ⟨2021, 1, 4⟩ (List.replicate 12 (⟨211, 50, by decide, by decide⟩ : ℚ))] :=
  ⟨by decide, by decide, by decide,
    c8_csv_round_trip _ (by decide) (by decide) (by decide)⟩
